import Mathlib

/-!
# The SQLite log writer and the snapshot protocol of the input manager

A shallow embedding of `src/logging/writers/SQLite.cc` (the functions
`GetTableType`, `checkError`, `DoInit`, `AddParams`, `DoWrite`) and of the two
indirect-mode entry points declared in `src/InputMgr.h`.

The writer talks to the storage engine through library calls.  Every such call is
recorded, in order, in a list of events, together with the result code it
received; the result codes come from a sequence `codes : Nat → Int`, the k-th
call made receiving `codes k`.  Diagnostics (`Error`, `Info`, `InternalError`)
are recorded in the same list.

A text is a `String`; where the source passes the size of a text in bytes
(`size()`, `Len()`), the model passes `utf8ByteSize`.
-/

namespace Bro

/-! ## Data model -/

/-- Modelled from the spec: the kind tag of a typed value.  The enumeration
`TypeTag` is declared outside the sources at hand; the tags that the writer
names are constructors, and every other tag value is `other code`. -/
inductive TypeTag where
  | TYPE_BOOL
  | TYPE_INT
  | TYPE_COUNT
  | TYPE_COUNTER
  | TYPE_PORT
  | TYPE_SUBNET
  | TYPE_ADDR
  | TYPE_TIME
  | TYPE_INTERVAL
  | TYPE_DOUBLE
  | TYPE_ENUM
  | TYPE_STRING
  | TYPE_FILE
  | TYPE_FUNC
  | TYPE_TABLE
  | TYPE_VECTOR
  | other (code : Nat)
  deriving DecidableEq, Repr

/-- Modelled from the spec: a double precision payload (time, interval,
double), kept as its bit pattern; the writer only passes it on. -/
structure Double where
  bits : Nat
  deriving DecidableEq, Repr

/-- Modelled from the spec: the member `string_val` of a value, a byte buffer
and a length (`SerialTypes.h` is outside the sources at hand). -/
structure string_t where
  data : String := ""
  length : Int := 0
  deriving DecidableEq, Repr

/-- Modelled from the spec: the member `port_val` of a value, a port number
and a protocol. -/
structure port_t where
  port : Nat := 0
  proto : Nat := 0
  deriving DecidableEq, Repr

/-- Modelled from the spec: the member `addr_val` of a value, an address
family and the address bytes. -/
structure addr_t where
  family : Nat := 0
  bytes : List Nat := []
  deriving DecidableEq, Repr

/-- Modelled from the spec: the member `subnet_val` of a value, a network
address (`prefix` in the source) and a length. -/
structure subnet_t where
  net : addr_t := {}
  length : Nat := 0
  deriving DecidableEq, Repr

/-- Modelled from the spec: the scalar members of the payload union of
`threading::Value` (declared in `SerialTypes.h`, outside the sources at hand).
The members are kept as separate fields; the writer reads only the member that
the tag selects.  `int_val` is a signed and `uint_val` an unsigned 64-bit
integer. -/
structure Payload where
  int_val : Int := 0
  uint_val : Nat := 0
  port_val : port_t := {}
  double_val : Double := ⟨0⟩
  addr_val : addr_t := {}
  subnet_val : subnet_t := {}
  string_val : string_t := {}
  deriving DecidableEq, Repr

/-- Modelled from the spec: an element of a set or vector, a
`threading::Value` that holds no container itself ("tables cannot contain
tables... or vectors", comment in `AddParams`). -/
structure ElemValue where
  type : TypeTag
  present : Bool := true
  val : Payload := {}
  deriving DecidableEq, Repr

/-- Modelled from the spec: `threading::Value`, a tagged value with a presence
flag.  `set_val` and `vector_val` are the container members of the union. -/
structure Value where
  type : TypeTag
  present : Bool := true
  val : Payload := {}
  set_val : List ElemValue := []
  vector_val : List ElemValue := []
  deriving DecidableEq, Repr

/-- Modelled from the spec: `threading::Field`, the descriptor of a column. -/
structure Field where
  name : String
  type : TypeTag
  subtype : TypeTag := TypeTag.other 0
  deriving DecidableEq, Repr

/-- Modelled from the spec: the part of `WriterInfo` that `DoInit` reads, the
path and the configuration table (its declaration is outside the sources at
hand). -/
structure WriterInfo where
  path : String
  config : List (String × String) := []
  deriving DecidableEq, Repr

/-! ## Storage engine calls and events -/

/-- The result code `SQLITE_OK` of the storage engine. -/
def SQLITE_OK : Int := 0

/-- The result code `SQLITE_DONE` of the storage engine. -/
def SQLITE_DONE : Int := 101

/-- A call into the storage engine that returns a result code. -/
inductive Call where
  | sqlite3_open_v2 (filename : String)
  | sqlite3_exec (sql : String)
  | sqlite3_prepare_v2 (sql : String) (nByte : Nat)
  | sqlite3_bind_null (pos : Nat)
  | sqlite3_bind_int (pos : Nat) (v : Int)
  | sqlite3_bind_double (pos : Nat) (v : Double)
  | sqlite3_bind_text (pos : Nat) (data : String) (n : Int)
  | sqlite3_step
  | sqlite3_clear_bindings
  | sqlite3_reset
  deriving DecidableEq, Repr

/-- What the writer does that is visible outside: a storage engine call with
the result code it received, or a diagnostic.  `ErrorTag` is an error whose
message formats a kind tag with `%d`. -/
inductive Event where
  | call (c : Call) (rc : Int)
  | Error (msg : String)
  | ErrorTag (msg : String) (arg_type : TypeTag)
  | Info (msg : String)
  | InternalError (msg : String)
  deriving DecidableEq, Repr

/-- The storage engine calls among a list of events, with their result
codes. -/
def callsOf : List Event → List (Call × Int)
  | [] => []
  | Event.call c rc :: es => (c, rc) :: callsOf es
  | _ :: es => callsOf es

/-- One storage engine call: it receives the next result code of `codes` and is
appended to the events. -/
def engine (codes : Nat → Int) (c : Call) (s : List Event) : Int × List Event :=
  (codes (callsOf s).length, s ++ [Event.call c (codes (callsOf s).length)])

/-! ## `SQLite::GetTableType` -/

/-- The function `SQLite::GetTableType`: the column type of a kind, and the
events of the call (an error for a kind outside the table). -/
def GetTableType (arg_type : TypeTag) (_arg_subtype : TypeTag) : String × List Event :=
  match arg_type with
  | TypeTag.TYPE_BOOL => ("boolean", [])
  | TypeTag.TYPE_INT => ("integer", [])
  | TypeTag.TYPE_COUNT => ("integer", [])
  | TypeTag.TYPE_COUNTER => ("integer", [])
  | TypeTag.TYPE_PORT => ("integer", [])
  | TypeTag.TYPE_SUBNET => ("text", [])
  | TypeTag.TYPE_ADDR => ("text", [])
  | TypeTag.TYPE_TIME => ("double precision", [])
  | TypeTag.TYPE_INTERVAL => ("double precision", [])
  | TypeTag.TYPE_DOUBLE => ("double precision", [])
  | TypeTag.TYPE_ENUM => ("text", [])
  | TypeTag.TYPE_STRING => ("text", [])
  | TypeTag.TYPE_FILE => ("text", [])
  | TypeTag.TYPE_FUNC => ("text", [])
  | TypeTag.TYPE_TABLE => ("text", [])
  | TypeTag.TYPE_VECTOR => ("text", [])
  | TypeTag.other code =>
      ("", [Event.ErrorTag "unsupported field format %d " (TypeTag.other code)])

/-- The function `SQLite::checkError`: true in case of error, which is
reported.  The text of the report is asked from the engine with
`sqlite3_errmsg`, which returns no result code and is not listed among the
calls. -/
def checkError (code : Int) (s : List Event) : Bool × List Event :=
  if code ≠ SQLITE_OK ∧ code ≠ SQLITE_DONE then
    (true, s ++ [Event.Error "SQLite call failed: %s"])
  else
    (false, s)

/-! ## Rendering of container elements -/

/-- Modelled from the spec: a hexadecimal digit, for the escaped form below. -/
def hexDigit (n : Nat) : Char :=
  "0123456789abcdef".data.getD n '0'

/-- Modelled from the spec: the escaped form of one byte: backslash, `x` and
two hexadecimal digits.  The spec asks that the separator "is escaped within
element text to keep the join reversible in principle" and does not fix the
form; what the statements below need of it is proved there. -/
def escapedByte (c : Char) : List Char :=
  ['\\', 'x', hexDigit (c.toNat / 16 % 16), hexDigit (c.toNat % 16)]

/-- Modelled from the spec: whether a non-empty escape sequence in force starts
the text. -/
def startsEscape (seqs : List (List Char)) (text : List Char) : Bool :=
  seqs.any (fun q => !q.isEmpty && q.isPrefixOf text)

/-- Modelled from the spec: the text with escaping, "the separator is escaped
within element text to keep the join reversible": the first byte of every
occurrence of an escape sequence in force, and every backslash, is replaced by
its escaped form. -/
def escapeText (seqs : List (List Char)) : List Char → List Char
  | [] => []
  | c :: cs =>
      if c = '\\' ∨ startsEscape seqs (c :: cs) = true then
        escapedByte c ++ escapeText seqs cs
      else
        c :: escapeText seqs cs

/-- Modelled from the spec: the output descriptor `ODesc` (its class is outside
the sources at hand): a byte buffer and the escape sequences in force.  The
text that `Add` appends is escaped with `escapeText` while an escape sequence
is in force. -/
structure ODesc where
  bytes : String := ""
  escape_sequences : List String := []
  deriving DecidableEq, Repr

/-- Modelled from the spec: `ODesc::Clear` empties the buffer. -/
def ODesc.Clear (d : ODesc) : ODesc :=
  { d with bytes := "" }

/-- Modelled from the spec: `ODesc::AddEscapeSequence` puts a sequence in
force. -/
def ODesc.AddEscapeSequence (d : ODesc) (s : String) : ODesc :=
  { d with escape_sequences := s :: d.escape_sequences.filter (fun q => q ≠ s) }

/-- Modelled from the spec: `ODesc::RemoveEscapeSequence` withdraws a
sequence. -/
def ODesc.RemoveEscapeSequence (d : ODesc) (s : String) : ODesc :=
  { d with escape_sequences := d.escape_sequences.filter (fun q => q ≠ s) }

/-- Modelled from the spec: `ODesc::AddRaw` appends bytes as they are. -/
def ODesc.AddRaw (d : ODesc) (s : String) : ODesc :=
  { d with bytes := d.bytes ++ s }

/-- Modelled from the spec: `ODesc::Add` appends text, escaped when an escape
sequence is in force. -/
def ODesc.Add (d : ODesc) (s : String) : ODesc :=
  if d.escape_sequences.isEmpty then
    { d with bytes := d.bytes ++ s }
  else
    { d with bytes := d.bytes ++ String.mk (escapeText (d.escape_sequences.map String.data) s.data) }

/-- Modelled from the spec: `ODesc::Bytes`. -/
def ODesc.Bytes (d : ODesc) : String :=
  d.bytes

/-- Modelled from the spec: `ODesc::Len`, the number of bytes in the buffer. -/
def ODesc.Len (d : ODesc) : Int :=
  d.bytes.utf8ByteSize

/-- Modelled from the spec: the formatter `AsciiFormatter` (its class is
outside the sources at hand), built by the writer from the separator, the null
marker and the empty marker.  The renderings of addresses, subnets and of
elements that are not string-like are left open. -/
structure AsciiFormatter where
  set_separator : String
  unset_field : String
  empty_field : String
  RenderAddr : addr_t → String
  RenderSubnet : subnet_t → String
  RenderScalar : ElemValue → String

/-- Modelled from the spec: `AsciiFormatter::Describe` for an element of a
container, "the same primitive-rendering path used for non-container values"
with the "null-marker/empty-marker strings reused for composite-value
rendering": an absent element is the null marker, a string-like element of
length zero the empty marker, another string-like element its bytes, an element
of another kind its rendering; all of it added with escaping. -/
def AsciiFormatter.Describe (io : AsciiFormatter) (desc : ODesc) (val : ElemValue) : ODesc :=
  if !val.present then
    desc.Add io.unset_field
  else if val.type = TypeTag.TYPE_ENUM ∨ val.type = TypeTag.TYPE_STRING
      ∨ val.type = TypeTag.TYPE_FILE ∨ val.type = TypeTag.TYPE_FUNC then
    if val.val.string_val.length = 0 then
      desc.Add io.empty_field
    else
      desc.Add (String.mk (val.val.string_val.data.data.take val.val.string_val.length.toNat))
  else
    desc.Add (io.RenderScalar val)

/-! ## `SQLite::AddParams` and `SQLite::DoWrite` -/

/-- The members of the writer object that `AddParams` reads. -/
structure SQLite where
  set_separator : String
  io : AsciiFormatter

/-- The conversion of a 64-bit payload to the 32-bit `int` parameter of
`sqlite3_bind_int`: the value modulo `2^32`, taken in `[-2^31, 2^31)`. -/
def to_int (x : Int) : Int :=
  (x + 2 ^ 31) % 2 ^ 32 - 2 ^ 31

/-- The loop of `AddParams` over the elements of a set or vector, from index
`j` on. -/
def describeElements (w : SQLite) : List ElemValue → Nat → ODesc → ODesc
  | [], _, desc => desc
  | v :: vs, j, desc =>
      let desc1 := if j > 0 then desc.AddRaw w.set_separator else desc
      describeElements w vs (j + 1) (w.io.Describe desc1 v)

/-- The descriptor that `AddParams` fills for a container value. -/
def containerDesc (w : SQLite) (vals : List ElemValue) : ODesc :=
  let desc : ODesc := {}
  let desc := desc.Clear
  let desc := desc.AddEscapeSequence w.set_separator
  let desc := describeElements w vals 0 desc
  desc.RemoveEscapeSequence w.set_separator

/-- The function `SQLite::AddParams`: binds one value at a parameter
position and returns the result code of the bind (`0` without a bind for a
kind it does not support). -/
def AddParams (w : SQLite) (codes : Nat → Int) (val : Value) (pos : Nat)
    (s : List Event) : Int × List Event :=
  if !val.present then
    engine codes (Call.sqlite3_bind_null pos) s
  else
    match val.type with
    | TypeTag.TYPE_BOOL =>
        engine codes (Call.sqlite3_bind_int pos (if val.val.int_val ≠ 0 then 1 else 0)) s
    | TypeTag.TYPE_INT =>
        engine codes (Call.sqlite3_bind_int pos (to_int val.val.int_val)) s
    | TypeTag.TYPE_COUNT =>
        engine codes (Call.sqlite3_bind_int pos (to_int val.val.uint_val)) s
    | TypeTag.TYPE_COUNTER =>
        engine codes (Call.sqlite3_bind_int pos (to_int val.val.uint_val)) s
    | TypeTag.TYPE_PORT =>
        engine codes (Call.sqlite3_bind_int pos (to_int val.val.port_val.port)) s
    | TypeTag.TYPE_SUBNET =>
        let out := w.io.RenderSubnet val.val.subnet_val
        engine codes (Call.sqlite3_bind_text pos out out.utf8ByteSize) s
    | TypeTag.TYPE_ADDR =>
        let out := w.io.RenderAddr val.val.addr_val
        engine codes (Call.sqlite3_bind_text pos out out.utf8ByteSize) s
    | TypeTag.TYPE_TIME =>
        engine codes (Call.sqlite3_bind_double pos val.val.double_val) s
    | TypeTag.TYPE_INTERVAL =>
        engine codes (Call.sqlite3_bind_double pos val.val.double_val) s
    | TypeTag.TYPE_DOUBLE =>
        engine codes (Call.sqlite3_bind_double pos val.val.double_val) s
    | TypeTag.TYPE_ENUM | TypeTag.TYPE_STRING | TypeTag.TYPE_FILE | TypeTag.TYPE_FUNC =>
        if val.val.string_val.length = 0 ∨ val.val.string_val.length = 0 then
          engine codes (Call.sqlite3_bind_null pos) s
        else
          engine codes
            (Call.sqlite3_bind_text pos val.val.string_val.data val.val.string_val.length) s
    | TypeTag.TYPE_TABLE =>
        let desc := containerDesc w val.set_val
        engine codes (Call.sqlite3_bind_text pos desc.Bytes desc.Len) s
    | TypeTag.TYPE_VECTOR =>
        let desc := containerDesc w val.vector_val
        engine codes (Call.sqlite3_bind_text pos desc.Bytes desc.Len) s
    | TypeTag.other code =>
        (0, s ++ [Event.ErrorTag "unsupported field format %d" (TypeTag.other code)])

/-- The bind loop of `DoWrite`, from value index `i` on: the value of index
`i` goes to position `i + 1`; a failed bind ends the write. -/
def bindParams (w : SQLite) (codes : Nat → Int) : List Value → Nat → List Event → Bool × List Event
  | [], _, s => (true, s)
  | v :: vs, i, s =>
      let r := AddParams w codes v (i + 1) s
      let e := checkError r.1 r.2
      if e.1 then (false, e.2) else bindParams w codes vs (i + 1) e.2

/-- The function `SQLite::DoWrite` on a row of `num_fields` values (the length
of `vals`): the binds, then step, clear-bindings and reset. -/
def DoWrite (w : SQLite) (codes : Nat → Int) (vals : List Value) : Bool × List Event :=
  let b := bindParams w codes vals 0 []
  if !b.1 then (false, b.2) else
  let r1 := engine codes Call.sqlite3_step b.2
  let e1 := checkError r1.1 r1.2
  if e1.1 then (false, e1.2) else
  let r2 := engine codes Call.sqlite3_clear_bindings e1.2
  let e2 := checkError r2.1 r2.2
  if e2.1 then (false, e2.2) else
  let r3 := engine codes Call.sqlite3_reset e2.2
  let e3 := checkError r3.1 r3.2
  if e3.1 then (false, e3.2) else
  (true, e3.2)

/-! ## `SQLite::DoInit` -/

/-- The text that the storage engine's `sqlite3_mprintf("%Q", s)` produces
(library behaviour, per its documentation): `s` between single quotes, every
single quote inside `s` doubled. -/
def quoteQ (s : String) : String :=
  "'" ++ String.mk (s.data.flatMap (fun c => if c = '\'' then ['\'', '\''] else [c])) ++ "'"

/-- What `DoInit` takes from its surroundings: the answer of
`sqlite3_threadsafe()`, the result of `sqlite3_mprintf("%Q", ·)` (`none` is the
null pointer of a failed allocation), and the result codes of the storage
engine calls. -/
structure Env where
  sqlite3_threadsafe : Int
  sqlite3_mprintf_Q : String → Option String
  codes : Nat → Int

/-- The first loop of `DoInit`, from field index `i` on: it appends the
column definitions to `create`; `none` when an allocation fails. -/
def createColumns (env : Env) : List Field → Nat → String → List Event → Option String × List Event
  | [], _, create, s => (some create, s)
  | field :: rest, i, create, s =>
      let create := if i ≠ 0 then create ++ ",\n" else create
      match env.sqlite3_mprintf_Q field.name with
      | none => (none, s ++ [Event.InternalError "Could not malloc memory"])
      | some fieldname =>
          let create := create ++ fieldname
          let type := GetTableType field.type field.subtype
          createColumns env rest (i + 1) (create ++ (" " ++ type.1)) (s ++ type.2)

/-- The second loop of `DoInit`, from field index `i` on: it appends the
column names to `names` and the placeholders to `insert`; `none` when an
allocation fails. -/
def insertColumns (env : Env) : List Field → Nat → String → String → List Event →
    Option (String × String) × List Event
  | [], _, names, insert, s => (some (names, insert), s)
  | field :: rest, i, names, insert, s =>
      let names := if i = 0 then names else names ++ ", "
      let insert := if i = 0 then insert else insert ++ ", "
      let insert := insert ++ "?"
      match env.sqlite3_mprintf_Q field.name with
      | none => (none, s ++ [Event.InternalError "Could not malloc memory"])
      | some fieldname => insertColumns env rest (i + 1) (names ++ fieldname) insert s

/-- The function `SQLite::DoInit`: opens the database, builds and executes the
create-table statement, builds and prepares the insert statement. -/
def DoInit (env : Env) (info : WriterInfo) (fields : List Field) : Bool × List Event :=
  if env.sqlite3_threadsafe = 0 then
    (false, [Event.Error "SQLite reports that it is not threadsafe. Bro needs a threadsafe version of SQLite. Aborting"])
  else
  let fullpath := info.path ++ ".sqlite"
  let found := info.config.lookup "dbname"
  let dbname := match found with
    | none => info.path
    | some v => v
  let s := match found with
    | none => [Event.Info "dbname configuration option not found. Defaulting to path %s"]
    | some _ => []
  let r := engine env.codes (Call.sqlite3_open_v2 fullpath) s
  let e := checkError r.1 r.2
  if e.1 then (false, e.2) else
  let create := "CREATE TABLE IF NOT EXISTS " ++ dbname ++ " (\n"
  match createColumns env fields 0 create e.2 with
  | (none, s1) => (false, s1)
  | (some create, s1) =>
      let create := create ++ "\n);"
      let res := engine env.codes (Call.sqlite3_exec create) s1
      if res.1 ≠ SQLITE_OK then
        (false, res.2 ++ [Event.Error "Error executing table creation statement: %s"])
      else
      let insert := "VALUES ("
      let names := "INSERT INTO " ++ dbname ++ " ( "
      match insertColumns env fields 0 names insert res.2 with
      | (none, s2) => (false, s2)
      | (some (names, insert), s2) =>
          let insert := insert ++ ");"
          let names := names ++ ") "
          let insert := names ++ insert
          let r2 := engine env.codes (Call.sqlite3_prepare_v2 insert (insert.utf8ByteSize + 1)) s2
          let e2 := checkError r2.1 r2.2
          if e2.1 then (false, e2.2) else (true, e2.2)

/-! ## Vocabulary of the statements -/

/-- A result code that `checkError` reports as a failure. -/
def failing (code : Int) : Prop :=
  code ≠ SQLITE_OK ∧ code ≠ SQLITE_DONE

instance (code : Int) : Decidable (failing code) := by
  unfold failing; exact inferInstance

/-- The parameter position of a bind call. -/
def Call.bindPos : Call → Option Nat
  | Call.sqlite3_bind_null pos => some pos
  | Call.sqlite3_bind_int pos _ => some pos
  | Call.sqlite3_bind_double pos _ => some pos
  | Call.sqlite3_bind_text pos _ _ => some pos
  | _ => none

/-- A parameter bind of any storage class. -/
def Call.isBind (c : Call) : Bool :=
  c.bindPos.isSome

/-- An integer bind. -/
def Call.isBindInt : Call → Bool
  | Call.sqlite3_bind_int _ _ => true
  | _ => false

/-- A double bind. -/
def Call.isBindDouble : Call → Bool
  | Call.sqlite3_bind_double _ _ => true
  | _ => false

/-- A text bind. -/
def Call.isBindText : Call → Bool
  | Call.sqlite3_bind_text _ _ _ => true
  | _ => false

/-- A NULL bind. -/
def Call.isBindNull : Call → Bool
  | Call.sqlite3_bind_null _ => true
  | _ => false

/-- The string-like kinds: enum, string, file and func. -/
def TypeTag.isStringLike : TypeTag → Bool
  | TypeTag.TYPE_ENUM => true
  | TypeTag.TYPE_STRING => true
  | TypeTag.TYPE_FILE => true
  | TypeTag.TYPE_FUNC => true
  | _ => false

/-- A formatter for examples: comma separator, the markers `-` and `(empty)`,
fixed renderings for what is left open. -/
def sampleFormatter : AsciiFormatter :=
  { set_separator := ",", unset_field := "-", empty_field := "(empty)",
    RenderAddr := fun _ => "10.0.0.1", RenderSubnet := fun _ => "10.0.0.0/8",
    RenderScalar := fun _ => "0" }

/-- A writer for examples, with the comma as separator. -/
def sampleWriter : SQLite :=
  { set_separator := ",", io := sampleFormatter }

/-- Surroundings for examples: a threadsafe engine, allocations that succeed,
and every call answered with `SQLITE_OK`. -/
def sampleEnv : Env :=
  { sqlite3_threadsafe := 1, sqlite3_mprintf_Q := fun s => some (quoteQ s), codes := fun _ => 0 }

/-- A present string element with the given text. -/
def stringElem (text : String) : ElemValue :=
  { type := TypeTag.TYPE_STRING, present := true,
    val := { string_val := { data := text, length := text.utf8ByteSize } } }

/-! ## Statement texts and joined text, as the specification words them -/

/-- The column definitions as the specification describes them: one per
descriptor, in order, each the quoted name, a space and the column type of the
kind. -/
def columnDefs (fields : List Field) : List String :=
  fields.map (fun f => quoteQ f.name ++ " " ++ (GetTableType f.type f.subtype).1)

/-- The quoted column names, one per descriptor, in order. -/
def columnNames (fields : List Field) : List String :=
  fields.map (fun f => quoteQ f.name)

/-- The parameter placeholders, one per descriptor. -/
def placeholders (fields : List Field) : List String :=
  fields.map (fun _ => "?")

/-- The create-table statement as the specification describes it: the table
name as it is given, then the column definitions between parentheses. -/
def createText (dbname : String) (fields : List Field) : String :=
  "CREATE TABLE IF NOT EXISTS " ++ dbname ++ " (\n"
    ++ String.intercalate ",\n" (columnDefs fields)
    ++ "\n);"

/-- The insert statement as the specification describes it: the table name as
it is given, the quoted column names between parentheses, and the placeholders
between parentheses. -/
def insertText (dbname : String) (fields : List Field) : String :=
  "INSERT INTO " ++ dbname ++ " ( "
    ++ String.intercalate ", " (columnNames fields)
    ++ ") " ++ ("VALUES (" ++ String.intercalate ", " (placeholders fields) ++ ");")

/-- The table name that `DoInit` uses: the `dbname` option, else the path. -/
def tableName (info : WriterInfo) : String :=
  match info.config.lookup "dbname" with
  | none => info.path
  | some v => v

/-- The rendering of one element before escaping: the null marker, the empty
marker, the bytes of a string-like element, or the formatter's rendering. -/
def elementRendering (io : AsciiFormatter) (val : ElemValue) : String :=
  if !val.present then io.unset_field
  else if val.type.isStringLike then
    if val.val.string_val.length = 0 then io.empty_field
    else String.mk (val.val.string_val.data.data.take val.val.string_val.length.toNat)
  else io.RenderScalar val

/-- The text of one element inside a container: its rendering, escaped for the
separator. -/
def elementText (w : SQLite) (val : ElemValue) : String :=
  String.mk (escapeText [w.set_separator.data] (elementRendering w.io val).data)

/-- The text of a container as the specification describes it: the element
texts joined with the separator. -/
def joinedText (w : SQLite) (vals : List ElemValue) : String :=
  String.intercalate w.set_separator (vals.map (elementText w))

/-! ## The indirect mode of the input manager -/

/-- An entry of the working set: the last-known row and the marker of the
current cycle. -/
structure Entry where
  row : List Value
  seen : Bool
  deriving DecidableEq, Repr

/-- The events that the input manager forwards. -/
inductive InputEvent where
  | added (row : List Value)
  | updated (old new : List Value)
  | deleted (row : List Value)
  deriving DecidableEq, Repr

/-- Modelled from the spec: a stream of the input manager (`ReaderInfo` is only
declared in `InputMgr.h`): the number of index fields, the working set from
identity hash to entry, and the events forwarded so far. -/
structure Stream where
  index_field_count : Nat
  working_set : List (Nat × Entry) := []
  events : List InputEvent := []
  deriving DecidableEq, Repr

/-- The entry stored under a key of the working set. -/
def wsFind (key : Nat) : List (Nat × Entry) → Option Entry
  | [] => none
  | (k, e) :: rest => if k = key then some e else wsFind key rest

/-- The working set with the entry under a key replaced. -/
def wsReplace (key : Nat) (e : Entry) : List (Nat × Entry) → List (Nat × Entry)
  | [] => []
  | (k, e0) :: rest => if k = key then (k, e) :: rest else (k, e0) :: wsReplace key e rest

/-- Modelled from the spec: `InputMgr::SendEntry` (only declared in
`InputMgr.h`).  The identity hash `HashLogVals` is taken over the index
prefix.  A row whose hash is absent from the working set is an addition; one
whose stored value suffix is unchanged is only marked seen; one whose value
suffix changed is an update that replaces the stored row. -/
def SendEntry (HashLogVals : List Value → Nat) (st : Stream) (vals : List Value) : Stream :=
  let key := HashLogVals (vals.take st.index_field_count)
  match wsFind key st.working_set with
  | none =>
      { st with working_set := (key, { row := vals, seen := true }) :: st.working_set,
                events := st.events ++ [InputEvent.added vals] }
  | some e =>
      if e.row.drop st.index_field_count = vals.drop st.index_field_count then
        { st with working_set := wsReplace key { e with seen := true } st.working_set }
      else
        { st with working_set := wsReplace key { row := vals, seen := true } st.working_set,
                  events := st.events ++ [InputEvent.updated e.row vals] }

/-- Modelled from the spec: `InputMgr::EndCurrentSend` (only declared in
`InputMgr.h`).  Every entry not marked seen is a removal, forwarded and
erased; all seen markers are cleared. -/
def EndCurrentSend (st : Stream) : Stream :=
  { st with
    working_set := (st.working_set.filter (fun p => p.2.seen)).map
      (fun p => (p.1, { p.2 with seen := false })),
    events := st.events
      ++ (st.working_set.filter (fun p => !p.2.seen)).map (fun p => InputEvent.deleted p.2.row) }

/-- A call of a reader in indirect mode. -/
inductive ReaderCall where
  | SendEntry (vals : List Value)
  | EndCurrentSend
  deriving DecidableEq, Repr

/-- A history of reader calls applied to a stream, in order. -/
def runCalls (HashLogVals : List Value → Nat) : Stream → List ReaderCall → Stream
  | st, [] => st
  | st, ReaderCall.SendEntry vals :: rest =>
      runCalls HashLogVals (SendEntry HashLogVals st vals) rest
  | st, ReaderCall.EndCurrentSend :: rest =>
      runCalls HashLogVals (EndCurrentSend st) rest

/-- The last row among `rows` whose index prefix hashes to `key`. -/
def lastSent (HashLogVals : List Value → Nat) (n : Nat) (key : Nat) (rows : List (List Value)) :
    Option (List Value) :=
  rows.reverse.find? (fun r => HashLogVals (r.take n) = key)

/-! ## Predicates and sample data of the proofs -/

/-- No call so far has failed, no call was made twice, and the k-th call
received `codes k`. -/
def CallsFine (codes : Nat → Int) (cs : List (Call × Int)) : Prop :=
  (∀ p ∈ cs, ¬ failing p.2) ∧ (cs.map Prod.fst).Nodup
    ∧ cs.map Prod.snd = (List.range cs.length).map codes

/-- The last call failed, none before it did, no call was made twice, and the
k-th call received `codes k`. -/
def CallsFailed (codes : Nat → Int) (cs : List (Call × Int)) : Prop :=
  (∃ init last, cs = init ++ [last] ∧ failing last.2 ∧ ∀ p ∈ init, ¬ failing p.2)
    ∧ (cs.map Prod.fst).Nodup ∧ cs.map Prod.snd = (List.range cs.length).map codes

/-- A writer whose formatter has the empty string as empty marker (comma
separator, `-` as null marker). -/
def bareWriter : SQLite :=
  { set_separator := ",",
    io := { sampleFormatter with empty_field := "" } }

/-- The events of `DoInit` up to the execution of the create-table statement,
when the database could be opened: the note on the table name, the open call,
and the errors of `GetTableType`. -/
def initPrefix (env : Env) (info : WriterInfo) (fields : List Field) : List Event :=
  (match info.config.lookup "dbname" with
    | none => [Event.Info "dbname configuration option not found. Defaulting to path %s"]
    | some _ => [])
  ++ [Event.call (Call.sqlite3_open_v2 (info.path ++ ".sqlite")) (env.codes 0)]
  ++ fields.flatMap (fun f => (GetTableType f.type f.subtype).2)

/-- What holds of a stream with `n` index fields in every state it reaches: no
identity hash occurs twice in the working set, and every stored row hashes to
the key it is stored under. -/
def StreamOk (H : List Value → Nat) (n : Nat) (st : Stream) : Prop :=
  st.index_field_count = n ∧ (st.working_set.map Prod.fst).Nodup
    ∧ ∀ k e, wsFind k st.working_set = some e → H (e.row.take n) = k

/-- The state of a stream inside a cycle in which the rows `sent` were sent so
far: an identity hash that was sent has an entry that is marked seen and holds
the value suffix of the last row sent with that hash; any other entry is not
marked. -/
def CycleInv (H : List Value → Nat) (n : Nat) (sent : List (List Value)) (st : Stream) : Prop :=
  StreamOk H n st ∧ ∀ k,
    match lastSent H n k sent with
    | some r => ∃ e, wsFind k st.working_set = some e ∧ e.seen = true
        ∧ e.row.drop n = r.drop n
    | none => ∀ e, wsFind k st.working_set = some e → e.seen = false

/-- The bytes that occur in escaped forms: the backslash, `x` and the
hexadecimal digits. -/
def escapeAlphabet : List Char :=
  "\\x0123456789abcdef".data

/-- A separator that is not empty and made of ASCII bytes that do not occur in
escaped forms. -/
def plainSeparator (sep : String) : Bool :=
  !sep.data.isEmpty && sep.data.all (fun ch => decide (ch.toNat < 128) && !escapeAlphabet.contains ch)

/-- A writer with the two-byte separator `::` (markers `-` and `(empty)`). -/
def colonWriter : SQLite :=
  { set_separator := "::", io := { sampleFormatter with set_separator := "::" } }

/-! # Theorems -/

/-! ## Column types (C1) -/

/-- C1: `GetTableType` follows the fixed table: boolean for bool; integer for
int, count, counter and port; text for subnet and addr; double precision for
time, interval and double; text for enum, string, file and func; text for table
and vector; for every other kind the empty string together with an error
report.  The subtype argument has no influence. -/
theorem GetTableType_table (sub : TypeTag) :
    GetTableType TypeTag.TYPE_BOOL sub = ("boolean", [])
    ∧ GetTableType TypeTag.TYPE_INT sub = ("integer", [])
    ∧ GetTableType TypeTag.TYPE_COUNT sub = ("integer", [])
    ∧ GetTableType TypeTag.TYPE_COUNTER sub = ("integer", [])
    ∧ GetTableType TypeTag.TYPE_PORT sub = ("integer", [])
    ∧ GetTableType TypeTag.TYPE_SUBNET sub = ("text", [])
    ∧ GetTableType TypeTag.TYPE_ADDR sub = ("text", [])
    ∧ GetTableType TypeTag.TYPE_TIME sub = ("double precision", [])
    ∧ GetTableType TypeTag.TYPE_INTERVAL sub = ("double precision", [])
    ∧ GetTableType TypeTag.TYPE_DOUBLE sub = ("double precision", [])
    ∧ GetTableType TypeTag.TYPE_ENUM sub = ("text", [])
    ∧ GetTableType TypeTag.TYPE_STRING sub = ("text", [])
    ∧ GetTableType TypeTag.TYPE_FILE sub = ("text", [])
    ∧ GetTableType TypeTag.TYPE_FUNC sub = ("text", [])
    ∧ GetTableType TypeTag.TYPE_TABLE sub = ("text", [])
    ∧ GetTableType TypeTag.TYPE_VECTOR sub = ("text", [])
    ∧ (∀ code, GetTableType (TypeTag.other code) sub
        = ("", [Event.ErrorTag "unsupported field format %d " (TypeTag.other code)]))
    ∧ (∀ t sub2, GetTableType t sub = GetTableType t sub2) := by
  refine ⟨rfl, rfl, rfl, rfl, rfl, rfl, rfl, rfl, rfl, rfl, rfl, rfl, rfl, rfl, rfl, rfl,
    fun _ => rfl, ?_⟩
  intro t sub2
  cases t <;> rfl


/-! ## Schema side and bind side (C9, C10, C6) -/

/-- C9: for a present value, `GetTableType` gives its kind a non-empty column
type exactly when `AddParams` issues a bind for it, and an empty one exactly
when `AddParams` takes the unsupported-kind branch; the bind is an integer bind
for boolean and integer columns, a double bind for double precision columns,
and a text or NULL bind for text columns. -/
theorem schema_bind_agree (w : SQLite) (codes : Nat → Int) (val : Value) (sub : TypeTag)
    (pos : Nat) (s : List Event) (hp : val.present = true) :
    (((GetTableType val.type sub).1 ≠ "") ↔
        ∃ c, c.isBind = true ∧ AddParams w codes val pos s = engine codes c s)
    ∧ (((GetTableType val.type sub).1 = "") ↔
        AddParams w codes val pos s
          = (0, s ++ [Event.ErrorTag "unsupported field format %d" val.type]))
    ∧ (∀ c, AddParams w codes val pos s = engine codes c s →
        (((GetTableType val.type sub).1 = "boolean" ∨ (GetTableType val.type sub).1 = "integer")
            → c.isBindInt = true)
        ∧ ((GetTableType val.type sub).1 = "double precision" → c.isBindDouble = true)
        ∧ ((GetTableType val.type sub).1 = "text"
            → c.isBindText = true ∨ c.isBindNull = true)) := by
  cases ht : val.type <;>
    simp [AddParams, GetTableType, hp, ht, engine, Call.isBind, Call.bindPos, Call.isBindInt,
      Call.isBindDouble, Call.isBindText, Call.isBindNull]
  all_goals
    by_cases hl : val.val.string_val.length = 0 <;> simp [hl]

/-- Witness of C9: a present count value gets the column type `integer` and an
integer bind. -/
theorem schema_bind_agree_witness :
    (((GetTableType TypeTag.TYPE_COUNT (TypeTag.other 0)).1 ≠ "") ↔
        ∃ c, c.isBind = true ∧
          AddParams sampleWriter (fun _ => 0) { type := TypeTag.TYPE_COUNT, val := { uint_val := 7 } } 1 []
            = engine (fun _ => 0) c [])
    ∧ (((GetTableType TypeTag.TYPE_COUNT (TypeTag.other 0)).1 = "") ↔
        AddParams sampleWriter (fun _ => 0) { type := TypeTag.TYPE_COUNT, val := { uint_val := 7 } } 1 []
          = (0, [] ++ [Event.ErrorTag "unsupported field format %d" TypeTag.TYPE_COUNT]))
    ∧ (∀ c, AddParams sampleWriter (fun _ => 0) { type := TypeTag.TYPE_COUNT, val := { uint_val := 7 } } 1 []
          = engine (fun _ => 0) c [] →
        (((GetTableType TypeTag.TYPE_COUNT (TypeTag.other 0)).1 = "boolean"
            ∨ (GetTableType TypeTag.TYPE_COUNT (TypeTag.other 0)).1 = "integer")
            → c.isBindInt = true)
        ∧ ((GetTableType TypeTag.TYPE_COUNT (TypeTag.other 0)).1 = "double precision"
            → c.isBindDouble = true)
        ∧ ((GetTableType TypeTag.TYPE_COUNT (TypeTag.other 0)).1 = "text"
            → c.isBindText = true ∨ c.isBindNull = true)) :=
  schema_bind_agree sampleWriter (fun _ => 0)
    { type := TypeTag.TYPE_COUNT, val := { uint_val := 7 } } (TypeTag.other 0) 1 [] rfl

/-- C10: for a value of a supported kind, `AddParams` binds NULL exactly when
the value is absent or is a present enum, string, file or func value of length
zero; a present string-like value of non-zero length is bound as text with its
bytes and its length. -/
theorem null_bind_iff (w : SQLite) (codes : Nat → Int) (val : Value) (sub : TypeTag)
    (pos : Nat) (s : List Event) (hk : (GetTableType val.type sub).1 ≠ "") :
    ((AddParams w codes val pos s = engine codes (Call.sqlite3_bind_null pos) s) ↔
        (val.present = false
          ∨ (val.present = true ∧ val.type.isStringLike = true ∧ val.val.string_val.length = 0)))
    ∧ (val.present = true → val.type.isStringLike = true → val.val.string_val.length ≠ 0 →
        AddParams w codes val pos s
          = engine codes
              (Call.sqlite3_bind_text pos val.val.string_val.data val.val.string_val.length) s) := by
  cases hp : val.present
  · simp [AddParams, hp]
  · cases ht : val.type <;>
      simp [AddParams, GetTableType, hp, ht, engine, TypeTag.isStringLike] at hk ⊢

/-- Witness of C10: a present string of length zero is bound as NULL. -/
theorem null_bind_iff_witness :
    ((AddParams sampleWriter (fun _ => 0) { type := TypeTag.TYPE_STRING } 1 []
        = engine (fun _ => 0) (Call.sqlite3_bind_null 1) []) ↔
        ((({ type := TypeTag.TYPE_STRING } : Value).present = false)
          ∨ (({ type := TypeTag.TYPE_STRING } : Value).present = true
              ∧ ({ type := TypeTag.TYPE_STRING } : Value).type.isStringLike = true
              ∧ ({ type := TypeTag.TYPE_STRING } : Value).val.string_val.length = 0)))
    ∧ (({ type := TypeTag.TYPE_STRING } : Value).present = true →
        ({ type := TypeTag.TYPE_STRING } : Value).type.isStringLike = true →
        ({ type := TypeTag.TYPE_STRING } : Value).val.string_val.length ≠ 0 →
        AddParams sampleWriter (fun _ => 0) { type := TypeTag.TYPE_STRING } 1 []
          = engine (fun _ => 0)
              (Call.sqlite3_bind_text 1 ({ type := TypeTag.TYPE_STRING } : Value).val.string_val.data
                ({ type := TypeTag.TYPE_STRING } : Value).val.string_val.length) []) :=
  null_bind_iff sampleWriter (fun _ => 0) { type := TypeTag.TYPE_STRING } (TypeTag.other 0) 1 []
    (by decide)

/-- C6 at a failing input: the count `4294967296` (two to the power 32) is
bound as the integer `0`, the same integer as the count `0`; the int
`2147483648` is bound as a negative integer; and no count from `2147483648` on
is bound as its own value. -/
theorem count_bind_truncates (w : SQLite) (codes : Nat → Int) :
    AddParams w codes { type := TypeTag.TYPE_COUNT, val := { uint_val := 4294967296 } } 1 []
        = engine codes (Call.sqlite3_bind_int 1 0) []
    ∧ AddParams w codes { type := TypeTag.TYPE_COUNT, val := { uint_val := 0 } } 1 []
        = engine codes (Call.sqlite3_bind_int 1 0) []
    ∧ AddParams w codes { type := TypeTag.TYPE_INT, val := { int_val := 2147483648 } } 1 []
        = engine codes (Call.sqlite3_bind_int 1 (-2147483648)) []
    ∧ (∀ (u pos : Nat) (s : List Event), 2 ^ 31 ≤ u →
        ∃ v : Int, v ≠ u
          ∧ AddParams w codes { type := TypeTag.TYPE_COUNT, val := { uint_val := u } } pos s
              = engine codes (Call.sqlite3_bind_int pos v) s) := by
  refine ⟨?_, ?_, ?_, ?_⟩
  · simp [AddParams, to_int]
  · simp [AddParams, to_int]
  · simp [AddParams, to_int]
  · intro u pos s hu
    refine ⟨to_int u, ?_, by simp [AddParams]⟩
    unfold to_int
    have h1 : ((u : Int) + 2 ^ 31) % 2 ^ 32 < 2 ^ 32 := Int.emod_lt_of_pos _ (by norm_num)
    have h2 : (2 : Int) ^ 31 ≤ u := by exact_mod_cast hu
    omega

/-! ## Writing a row (C3) -/

theorem callsOf_append (s t : List Event) : callsOf (s ++ t) = callsOf s ++ callsOf t := by
  induction s with
  | nil => rfl
  | cons e s ih => cases e <;> simp [callsOf, ih]

/-- Either `AddParams` makes exactly one call, a bind at the given position, or
it makes none and returns `0`. -/
theorem AddParams_cases (w : SQLite) (codes : Nat → Int) (val : Value) (pos : Nat)
    (s : List Event) :
    (∃ c, c.bindPos = some pos ∧ AddParams w codes val pos s = engine codes c s)
    ∨ (val.present = true ∧ (GetTableType val.type val.type).1 = ""
        ∧ AddParams w codes val pos s
          = (0, s ++ [Event.ErrorTag "unsupported field format %d" val.type])) := by
  cases hp : val.present
  · left
    refine ⟨Call.sqlite3_bind_null pos, rfl, ?_⟩
    simp [AddParams, hp]
  · cases ht : val.type
    case other code =>
      right
      simp [AddParams, hp, ht, GetTableType]
    all_goals
      left
      simp only [AddParams, hp, ht]
      split_ifs <;> exact ⟨_, by rfl, rfl⟩

theorem callsFine_snoc (codes : Nat → Int) (cs : List (Call × Int)) (c : Call)
    (h : CallsFine codes cs) (hc : c ∉ cs.map Prod.fst) :
    (¬ failing (codes cs.length) → CallsFine codes (cs ++ [(c, codes cs.length)]))
    ∧ (failing (codes cs.length) → CallsFailed codes (cs ++ [(c, codes cs.length)])) := by
  obtain ⟨h1, h2, h3⟩ := h
  have hnd : ((cs ++ [(c, codes cs.length)]).map Prod.fst).Nodup := by
    rw [List.map_append, List.nodup_append]
    refine ⟨h2, by simp, ?_⟩
    intro a ha hb
    simp at hb
    subst hb
    exact hc ha
  have hcodes : (cs ++ [(c, codes cs.length)]).map Prod.snd
      = (List.range (cs ++ [(c, codes cs.length)]).length).map codes := by
    simp [List.range_succ, h3]
  constructor
  · intro hf
    refine ⟨?_, hnd, hcodes⟩
    intro p hp
    rcases List.mem_append.1 hp with hp | hp
    · exact h1 p hp
    · simp at hp
      subst hp
      exact hf
  · intro hf
    exact ⟨⟨cs, _, rfl, hf, h1⟩, hnd, hcodes⟩

theorem checkError_fst (code : Int) (s : List Event) :
    ((checkError code s).1 = true ↔ failing code) ∧ callsOf (checkError code s).2 = callsOf s := by
  unfold checkError failing
  by_cases h : code ≠ SQLITE_OK ∧ code ≠ SQLITE_DONE
  · simp [h, callsOf_append, callsOf]
  · simp only [h, if_false]
    simp

theorem engine_calls (codes : Nat → Int) (c : Call) (s : List Event) :
    (engine codes c s).1 = codes (callsOf s).length
    ∧ callsOf (engine codes c s).2 = callsOf s ++ [(c, codes (callsOf s).length)] := by
  simp [engine, callsOf_append, callsOf]

theorem call_check (codes : Nat → Int) (c : Call) (s : List Event)
    (h : CallsFine codes (callsOf s)) (hc : c ∉ (callsOf s).map Prod.fst) :
    ((checkError (engine codes c s).1 (engine codes c s).2).1 = false
        ∧ CallsFine codes (callsOf (checkError (engine codes c s).1 (engine codes c s).2).2)
        ∧ callsOf (checkError (engine codes c s).1 (engine codes c s).2).2
            = callsOf s ++ [(c, codes (callsOf s).length)])
    ∨ ((checkError (engine codes c s).1 (engine codes c s).2).1 = true
        ∧ CallsFailed codes (callsOf (checkError (engine codes c s).1 (engine codes c s).2).2)) := by
  obtain ⟨e1, e2⟩ := engine_calls codes c s
  obtain ⟨c1, c2⟩ := checkError_fst (engine codes c s).1 (engine codes c s).2
  obtain ⟨k1, k2⟩ := callsFine_snoc codes (callsOf s) c h hc
  rw [c2, e2]
  rw [e1] at c1
  by_cases hf : failing (codes (callsOf s).length)
  · right
    exact ⟨c1.2 hf, k2 hf⟩
  · left
    refine ⟨?_, k1 hf, rfl⟩
    cases hb : (checkError (engine codes c s).1 (engine codes c s).2).1
    · rfl
    · exact absurd (c1.1 hb) hf

theorem bindParams_calls (w : SQLite) (codes : Nat → Int) :
    ∀ (vals : List Value) (i : Nat) (s : List Event),
    CallsFine codes (callsOf s) →
    (∀ p ∈ callsOf s, ∃ pos, p.1.bindPos = some pos ∧ pos ≤ i) →
    ((bindParams w codes vals i s).1 = true
        ∧ CallsFine codes (callsOf (bindParams w codes vals i s).2)
        ∧ ∀ p ∈ callsOf (bindParams w codes vals i s).2, ∃ pos, p.1.bindPos = some pos)
    ∨ ((bindParams w codes vals i s).1 = false
        ∧ CallsFailed codes (callsOf (bindParams w codes vals i s).2)) := by
  intro vals
  induction vals with
  | nil =>
    intro i s h hp
    left
    refine ⟨rfl, h, ?_⟩
    intro p hpm
    obtain ⟨pos, h1, _⟩ := hp p hpm
    exact ⟨pos, h1⟩
  | cons v vs ih =>
    intro i s h hp
    simp only [bindParams]
    rcases AddParams_cases w codes v (i + 1) s with ⟨c, hc, heq⟩ | ⟨_, _, heq⟩
    · rw [heq]
      have hnot : c ∉ (callsOf s).map Prod.fst := by
        intro hm
        obtain ⟨p, hpm, rfl⟩ := List.mem_map.1 hm
        obtain ⟨pos, h1, h2⟩ := hp p hpm
        rw [hc] at h1
        injection h1 with h1
        omega
      rcases call_check codes c s h hnot with ⟨a1, a2, a3⟩ | ⟨a1, a2⟩
      · rw [a1]
        simp only [Bool.false_eq_true, if_false]
        apply ih (i + 1) _ a2
        intro p hpm
        rw [a3] at hpm
        rcases List.mem_append.1 hpm with hpm | hpm
        · obtain ⟨pos, h1, h2⟩ := hp p hpm
          exact ⟨pos, h1, by omega⟩
        · simp at hpm
          subst hpm
          exact ⟨i + 1, hc, le_refl _⟩
      · rw [a1]
        simp only [if_true]
        right
        exact ⟨by simp, a2⟩
    · rw [heq]
      have hce : checkError 0 (s ++ [Event.ErrorTag "unsupported field format %d" v.type])
          = (false, s ++ [Event.ErrorTag "unsupported field format %d" v.type]) := by
        simp [checkError, SQLITE_OK]
      simp only [hce, Bool.false_eq_true, if_false]
      have hcalls : callsOf (s ++ [Event.ErrorTag "unsupported field format %d" v.type])
          = callsOf s := by
        simp [callsOf_append, callsOf]
      apply ih (i + 1)
      · rw [hcalls]; exact h
      · rw [hcalls]
        intro p hpm
        obtain ⟨pos, h1, h2⟩ := hp p hpm
        exact ⟨pos, h1, by omega⟩

/-- The outcome of `DoWrite`: success with no failed call, or failure with the
last call failed. -/
theorem DoWrite_outcome (w : SQLite) (codes : Nat → Int) (vals : List Value) :
    ((DoWrite w codes vals).1 = true ∧ CallsFine codes (callsOf (DoWrite w codes vals).2))
    ∨ ((DoWrite w codes vals).1 = false ∧ CallsFailed codes (callsOf (DoWrite w codes vals).2)) := by
  have h0 : CallsFine codes (callsOf []) := by
    simp [CallsFine, callsOf]
  have hp0 : ∀ p ∈ callsOf ([] : List Event), ∃ pos, p.1.bindPos = some pos ∧ pos ≤ 0 := by
    simp [callsOf]
  unfold DoWrite
  rcases bindParams_calls w codes vals 0 [] h0 hp0 with ⟨b1, b2, b3⟩ | ⟨b1, b2⟩
  · simp only [b1, Bool.not_true, Bool.false_eq_true, if_false]
    have hstep : Call.sqlite3_step ∉ (callsOf (bindParams w codes vals 0 []).2).map Prod.fst := by
      intro hm
      obtain ⟨p, hpm, hpe⟩ := List.mem_map.1 hm
      obtain ⟨pos, h1⟩ := b3 p hpm
      rw [hpe] at h1
      simp [Call.bindPos] at h1
    rcases call_check codes _ _ b2 hstep with ⟨a1, a2, a3⟩ | ⟨a1, a2⟩
    · simp only [a1, Bool.false_eq_true, if_false]
      have hclear : Call.sqlite3_clear_bindings ∉
          (callsOf (checkError (engine codes Call.sqlite3_step (bindParams w codes vals 0 []).2).1
            (engine codes Call.sqlite3_step (bindParams w codes vals 0 []).2).2).2).map Prod.fst := by
        rw [a3]
        intro hm
        obtain ⟨p, hpm, hpe⟩ := List.mem_map.1 hm
        rcases List.mem_append.1 hpm with hpm | hpm
        · obtain ⟨pos, h1⟩ := b3 p hpm
          rw [hpe] at h1
          simp [Call.bindPos] at h1
        · simp at hpm
          subst hpm
          simp at hpe
      rcases call_check codes _ _ a2 hclear with ⟨d1, d2, d3⟩ | ⟨d1, d2⟩
      · simp only [d1, Bool.false_eq_true, if_false]
        have hreset : Call.sqlite3_reset ∉
            (callsOf (checkError (engine codes Call.sqlite3_clear_bindings
              (checkError (engine codes Call.sqlite3_step (bindParams w codes vals 0 []).2).1
                (engine codes Call.sqlite3_step (bindParams w codes vals 0 []).2).2).2).1
              (engine codes Call.sqlite3_clear_bindings
              (checkError (engine codes Call.sqlite3_step (bindParams w codes vals 0 []).2).1
                (engine codes Call.sqlite3_step (bindParams w codes vals 0 []).2).2).2).2).2).map
              Prod.fst := by
          rw [d3, a3]
          intro hm
          obtain ⟨p, hpm, hpe⟩ := List.mem_map.1 hm
          rcases List.mem_append.1 hpm with hpm | hpm
          · rcases List.mem_append.1 hpm with hpm | hpm
            · obtain ⟨pos, h1⟩ := b3 p hpm
              rw [hpe] at h1
              simp [Call.bindPos] at h1
            · simp at hpm
              subst hpm
              simp at hpe
          · simp at hpm
            subst hpm
            simp at hpe
        rcases call_check codes _ _ d2 hreset with ⟨g1, g2, _⟩ | ⟨g1, g2⟩
        · simp only [g1, Bool.false_eq_true, if_false]
          left
          exact ⟨by simp, g2⟩
        · simp only [g1, if_true]
          right
          exact ⟨by simp, g2⟩
      · simp only [d1, if_true]
        right
        exact ⟨by simp, d2⟩
    · simp only [a1, if_true]
      right
      exact ⟨by simp, a2⟩
  · simp only [b1, Bool.not_false, if_true]
    right
    exact ⟨by simp, b2⟩

theorem callsOf_checkError (code : Int) (s : List Event) :
    callsOf (checkError code s).2 = callsOf s :=
  (checkError_fst code s).2

theorem callsOf_engine (codes : Nat → Int) (c : Call) (s : List Event) :
    callsOf (engine codes c s).2 = callsOf s ++ [(c, codes (callsOf s).length)] :=
  (engine_calls codes c s).2

theorem bindParams_kinds (w : SQLite) (codes : Nat → Int) :
    ∀ (vals : List Value) (i : Nat) (s : List Event) (p : Call × Int),
    p ∈ callsOf (bindParams w codes vals i s).2 → p ∈ callsOf s ∨ p.1.isBind = true := by
  intro vals
  induction vals with
  | nil =>
    intro i s p hp
    exact Or.inl hp
  | cons v vs ih =>
    intro i s p hp
    simp only [bindParams] at hp
    have hadd : ∀ q ∈ callsOf (AddParams w codes v (i + 1) s).2,
        q ∈ callsOf s ∨ q.1.isBind = true := by
      intro q hq
      rcases AddParams_cases w codes v (i + 1) s with ⟨c, hc, heq⟩ | ⟨_, _, heq⟩
      · rw [heq, callsOf_engine] at hq
        rcases List.mem_append.1 hq with hq | hq
        · exact Or.inl hq
        · simp at hq
          subst hq
          right
          simp [Call.isBind, hc]
      · rw [heq] at hq
        simp [callsOf_append, callsOf] at hq
        exact Or.inl hq
    split_ifs at hp with hb
    · simp only [callsOf_checkError] at hp
      exact hadd p hp
    · rcases ih (i + 1) _ p hp with h1 | h1
      · rw [callsOf_checkError] at h1
        exact hadd p h1
      · exact Or.inr h1

/-- C3: `DoWrite` returns false exactly when one of the storage engine calls it
made received a code other than `SQLITE_OK` and `SQLITE_DONE`; a call that
received such a code is the last call of the write; no call is made twice; the
calls are parameter binds, the step, clear-bindings and reset, and the k-th of
them received the k-th result code. -/
theorem DoWrite_false_iff (w : SQLite) (codes : Nat → Int) (vals : List Value) :
    ((DoWrite w codes vals).1 = false ↔ ∃ p ∈ callsOf (DoWrite w codes vals).2, failing p.2)
    ∧ (∀ pre p post, callsOf (DoWrite w codes vals).2 = pre ++ p :: post →
        failing p.2 → post = [])
    ∧ ((callsOf (DoWrite w codes vals).2).map Prod.fst).Nodup
    ∧ (callsOf (DoWrite w codes vals).2).map Prod.snd
        = (List.range (callsOf (DoWrite w codes vals).2).length).map codes
    ∧ (∀ p ∈ callsOf (DoWrite w codes vals).2,
        p.1.isBind = true ∨ p.1 = Call.sqlite3_step ∨ p.1 = Call.sqlite3_clear_bindings
          ∨ p.1 = Call.sqlite3_reset) := by
  have hkinds : ∀ p ∈ callsOf (DoWrite w codes vals).2,
      p.1.isBind = true ∨ p.1 = Call.sqlite3_step ∨ p.1 = Call.sqlite3_clear_bindings
        ∨ p.1 = Call.sqlite3_reset := by
    intro p hp
    have hb : ∀ q ∈ callsOf (bindParams w codes vals 0 []).2, q.1.isBind = true := by
      intro q hq
      rcases bindParams_kinds w codes vals 0 [] q hq with h | h
      · simp [callsOf] at h
      · exact h
    unfold DoWrite at hp
    simp only [] at hp
    split_ifs at hp <;>
      simp only [callsOf_checkError, callsOf_engine, List.mem_append, List.mem_singleton] at hp
    · exact Or.inl (hb p hp)
    · rcases hp with hp | hp
      · exact Or.inl (hb p hp)
      · subst hp; simp
    · rcases hp with (hp | hp) | hp
      · exact Or.inl (hb p hp)
      · subst hp; simp
      · subst hp; simp
    · rcases hp with ((hp | hp) | hp) | hp
      · exact Or.inl (hb p hp)
      · subst hp; simp
      · subst hp; simp
      · subst hp; simp
    · rcases hp with ((hp | hp) | hp) | hp
      · exact Or.inl (hb p hp)
      · subst hp; simp
      · subst hp; simp
      · subst hp; simp
  rcases DoWrite_outcome w codes vals with ⟨r1, f1, f2, f3⟩ | ⟨r1, ⟨init, last, hcs, hlast, hinit⟩, f2, f3⟩
  · refine ⟨?_, ?_, f2, f3, hkinds⟩
    · rw [r1]
      constructor
      · intro h
        cases h
      · rintro ⟨p, hp, hf⟩
        exact absurd hf (f1 p hp)
    · intro pre p post hcs hf
      exact absurd hf (f1 p (by rw [hcs]; simp))
  · refine ⟨?_, ?_, f2, f3, hkinds⟩
    · rw [r1]
      constructor
      · intro _
        exact ⟨last, by rw [hcs]; simp, hlast⟩
      · intro _
        rfl
    · intro pre p post hpre hf
      rw [hcs] at hpre
      rcases List.append_eq_append_iff.1 hpre with ⟨a, h1, h2⟩ | ⟨c, h1, h2⟩
      · cases a with
        | nil =>
          simp at h2
          exact h2.2
        | cons x a =>
          have hlen := congrArg List.length h2
          simp at hlen
      · cases c with
        | nil =>
          simp at h2
          exact h2.2
        | cons x c =>
          simp at h2
          have hx : p ∈ init := by
            rw [h1]
            simp [h2.1]
          exact absurd hf (hinit p hx)


/-! ## Container values, the loop of `AddParams` (C5) -/

theorem join_cons_string (t : String) (ts : List String) :
    String.join (t :: ts) = t ++ String.join ts := by
  have h : ∀ (l : List String) (acc : String),
      List.foldl (fun r s => r ++ s) acc l = acc ++ List.foldl (fun r s => r ++ s) "" l := by
    intro l
    induction l with
    | nil => intro acc; simp
    | cons a l ih =>
      intro acc
      simp only [List.foldl_cons]
      rw [ih (acc ++ a), ih ("" ++ a)]
      simp [String.append_assoc]
  unfold String.join
  simp only [List.foldl_cons]
  rw [h ts ("" ++ t)]
  simp

theorem intercalate_go (sep : String) (ts : List String) (acc : String) :
    String.intercalate.go acc sep ts = acc ++ String.join (ts.map (fun t => sep ++ t)) := by
  induction ts generalizing acc with
  | nil => simp [String.intercalate.go, String.join]
  | cons t ts ih =>
    simp only [String.intercalate.go, ih, List.map_cons, join_cons_string, String.append_assoc]

theorem Describe_bytes (w : SQLite) (d : ODesc) (v : ElemValue)
    (hd : d.escape_sequences = [w.set_separator]) :
    w.io.Describe d v = { d with bytes := d.bytes ++ elementText w v } := by
  unfold AsciiFormatter.Describe elementText elementRendering ODesc.Add
  rw [hd]
  cases hp : v.present
  · simp
  · cases ht : v.type <;> simp [TypeTag.isStringLike] <;>
      by_cases hl : v.val.string_val.length = 0 <;> simp [hl]

theorem describeElements_bytes (w : SQLite) :
    ∀ (vals : List ElemValue) (j : Nat) (d : ODesc), 0 < j →
    d.escape_sequences = [w.set_separator] →
    describeElements w vals j d
      = { d with bytes := d.bytes
            ++ String.join (vals.map (fun v => w.set_separator ++ elementText w v)) } := by
  intro vals
  induction vals with
  | nil =>
    intro j d _ _
    simp [describeElements, String.join]
  | cons v vs ih =>
    intro j d hj hd
    simp only [describeElements, hj, if_true, List.map_cons, join_cons_string]
    rw [Describe_bytes w _ v (by simp [ODesc.AddRaw, hd])]
    rw [ih (j + 1) _ (Nat.succ_pos j) (by simp [ODesc.AddRaw, hd])]
    simp [ODesc.AddRaw, String.append_assoc]

/-- The descriptor that `AddParams` fills holds the joined text of the
specification. -/
theorem containerDesc_bytes (w : SQLite) (vals : List ElemValue) :
    (containerDesc w vals).Bytes = joinedText w vals := by
  unfold containerDesc joinedText
  cases vals with
  | nil =>
    simp [describeElements, ODesc.RemoveEscapeSequence, ODesc.Bytes, ODesc.Clear,
      ODesc.AddEscapeSequence, String.intercalate]
  | cons v vs =>
    simp only [describeElements, List.map_cons, String.intercalate, intercalate_go]
    rw [Describe_bytes w _ v (by simp [ODesc.AddEscapeSequence, ODesc.Clear])]
    rw [describeElements_bytes w vs 1 _ Nat.one_pos
      (by simp [ODesc.AddEscapeSequence, ODesc.Clear])]
    simp [ODesc.RemoveEscapeSequence, ODesc.Bytes, ODesc.Clear, ODesc.AddEscapeSequence]
    rfl

/-! ## Initialisation (C2, C4, C8) -/

theorem intercalate_cons (sep t : String) (ts : List String) :
    String.intercalate sep (t :: ts) = t ++ String.join (ts.map (fun u => sep ++ u)) := by
  simp [String.intercalate, intercalate_go]

theorem callsOf_typeErrors (fields : List Field) :
    callsOf (fields.flatMap (fun f => (GetTableType f.type f.subtype).2)) = [] := by
  induction fields with
  | nil => rfl
  | cons f fs ih =>
    simp only [List.flatMap_cons, callsOf_append, ih, List.append_nil]
    cases f.type <;> simp [GetTableType, callsOf]

theorem createColumns_succ (env : Env) (hq : ∀ n, env.sqlite3_mprintf_Q n = some (quoteQ n)) :
    ∀ (fields : List Field) (i : Nat) (create : String) (s : List Event),
    createColumns env fields (i + 1) create s
      = (some (create ++ String.join (fields.map
            (fun f => ",\n" ++ (quoteQ f.name ++ " " ++ (GetTableType f.type f.subtype).1)))),
         s ++ fields.flatMap (fun f => (GetTableType f.type f.subtype).2)) := by
  intro fields
  induction fields with
  | nil =>
    intro i create s
    simp [createColumns, String.join]
  | cons f fs ih =>
    intro i create s
    simp only [createColumns, hq, ih, List.map_cons, join_cons_string, List.flatMap_cons]
    simp [String.append_assoc]

theorem createColumns_zero (env : Env) (hq : ∀ n, env.sqlite3_mprintf_Q n = some (quoteQ n))
    (fields : List Field) (create : String) (s : List Event) :
    createColumns env fields 0 create s
      = (some (create ++ String.intercalate ",\n" (fields.map
            (fun f => quoteQ f.name ++ " " ++ (GetTableType f.type f.subtype).1))),
         s ++ fields.flatMap (fun f => (GetTableType f.type f.subtype).2)) := by
  cases fields with
  | nil => simp [createColumns, String.intercalate]
  | cons f fs =>
    simp only [createColumns, hq, createColumns_succ env hq, List.map_cons, intercalate_cons,
      List.flatMap_cons]
    simp [String.append_assoc, Function.comp_def]

theorem insertColumns_succ (env : Env) (hq : ∀ n, env.sqlite3_mprintf_Q n = some (quoteQ n)) :
    ∀ (fields : List Field) (i : Nat) (names insert : String) (s : List Event),
    insertColumns env fields (i + 1) names insert s
      = (some (names ++ String.join (fields.map (fun f => ", " ++ quoteQ f.name)),
            insert ++ String.join (fields.map (fun _ => ", " ++ "?"))), s) := by
  intro fields
  induction fields with
  | nil =>
    intro i names insert s
    simp [insertColumns, String.join]
  | cons f fs ih =>
    intro i names insert s
    simp only [insertColumns, hq, ih, List.map_cons, join_cons_string]
    simp [String.append_assoc]

theorem insertColumns_zero (env : Env) (hq : ∀ n, env.sqlite3_mprintf_Q n = some (quoteQ n))
    (fields : List Field) (names insert : String) (s : List Event) :
    insertColumns env fields 0 names insert s
      = (some (names ++ String.intercalate ", " (fields.map (fun f => quoteQ f.name)),
            insert ++ String.intercalate ", " (fields.map (fun _ => "?"))), s) := by
  cases fields with
  | nil => simp [insertColumns, String.intercalate]
  | cons f fs =>
    simp only [insertColumns, hq, insertColumns_succ env hq, List.map_cons, intercalate_cons]
    simp [String.append_assoc, Function.comp_def]

theorem callsOf_initPrefix (env : Env) (info : WriterInfo) (fields : List Field) :
    callsOf (initPrefix env info fields)
      = [(Call.sqlite3_open_v2 (info.path ++ ".sqlite"), env.codes 0)] := by
  unfold initPrefix
  rw [callsOf_append, callsOf_append, callsOf_typeErrors]
  cases info.config.lookup "dbname" <;> simp [callsOf]

/-- The run of `DoInit` when the engine is threadsafe, the allocations succeed
and the database could be opened. -/
theorem DoInit_eq (env : Env) (info : WriterInfo) (fields : List Field)
    (hts : env.sqlite3_threadsafe ≠ 0)
    (hq : ∀ n, env.sqlite3_mprintf_Q n = some (quoteQ n))
    (hopen : ¬ failing (env.codes 0)) :
    DoInit env info fields
      = if env.codes 1 ≠ SQLITE_OK then
          (false, initPrefix env info fields
            ++ [Event.call (Call.sqlite3_exec (createText (tableName info) fields)) (env.codes 1),
                Event.Error "Error executing table creation statement: %s"])
        else if failing (env.codes 2) then
          (false, initPrefix env info fields
            ++ [Event.call (Call.sqlite3_exec (createText (tableName info) fields)) (env.codes 1),
                Event.call (Call.sqlite3_prepare_v2 (insertText (tableName info) fields)
                  ((insertText (tableName info) fields).utf8ByteSize + 1)) (env.codes 2),
                Event.Error "SQLite call failed: %s"])
        else
          (true, initPrefix env info fields
            ++ [Event.call (Call.sqlite3_exec (createText (tableName info) fields)) (env.codes 1),
                Event.call (Call.sqlite3_prepare_v2 (insertText (tableName info) fields)
                  ((insertText (tableName info) fields).utf8ByteSize + 1)) (env.codes 2)]) := by
  have hce : ∀ s, checkError (env.codes 0) s = (false, s) := by
    intro s
    unfold checkError
    exact if_neg hopen
  have hi : ∀ m, callsOf [Event.Info m] = [] := fun _ => rfl
  have he : ∀ m, callsOf [Event.Error m] = [] := fun _ => rfl
  have hc : ∀ c rc, callsOf [Event.call c rc] = [(c, rc)] := fun _ _ => rfl
  have hn : callsOf [] = [] := rfl
  unfold DoInit initPrefix tableName createText insertText columnDefs columnNames placeholders
  simp only [hts, if_false]
  cases hl : info.config.lookup "dbname" <;>
    simp only [engine, hce, Bool.false_eq_true, if_false,
      createColumns_zero env hq, insertColumns_zero env hq, callsOf_append, callsOf_typeErrors,
      hi, he, hc, hn, List.length_nil,
      List.length_append, List.length_cons, List.append_nil, List.nil_append, Nat.zero_add]
  all_goals
    have h22 : (1 : Nat) + 1 = 2 := rfl
    rw [h22]
    by_cases h1 : env.codes 1 = SQLITE_OK <;> by_cases h2 : failing (env.codes 2)
    · have hc2 : ∀ s, checkError (env.codes 2) s
          = (true, s ++ [Event.Error "SQLite call failed: %s"]) := by
        intro s
        unfold checkError
        exact if_pos h2
      simp [h1, h2, hc2]
    · have hc2 : ∀ s, checkError (env.codes 2) s = (false, s) := by
        intro s
        unfold checkError
        exact if_neg h2
      simp [h1, h2, hc2]
    · simp [h1]
    · simp [h1]

/-- C2 at a failing input: with a field of a kind outside the column-type
table and an engine that answers every call with `SQLITE_OK` (a column without
a type is a column the engine accepts), `DoInit` reports the unsupported kind,
still executes the create-table statement, with no type for that column, and
returns success. -/
theorem DoInit_unsupported_kind_succeeds :
    (GetTableType (TypeTag.other 0) (TypeTag.other 0)).1 = ""
    ∧ DoInit sampleEnv { path := "conn" } [{ name := "f", type := TypeTag.other 0 }]
      = (true,
          [Event.Info "dbname configuration option not found. Defaulting to path %s",
           Event.call (Call.sqlite3_open_v2 "conn.sqlite") 0,
           Event.ErrorTag "unsupported field format %d " (TypeTag.other 0),
           Event.call (Call.sqlite3_exec "CREATE TABLE IF NOT EXISTS conn (\n'f' \n);") 0,
           Event.call (Call.sqlite3_prepare_v2 "INSERT INTO conn ( 'f') VALUES (?);" 36) 0]) := by
  decide

/-- C4 at a failing input: a table name that holds SQL text is placed as it is
in both statements, where it ends the statement and starts another one; the
column name is quoted. -/
theorem DoInit_table_name_verbatim :
    DoInit sampleEnv { path := "conn", config := [("dbname", "t; DROP TABLE u; --")] }
        [{ name := "a", type := TypeTag.TYPE_INT }]
      = (true,
          [Event.call (Call.sqlite3_open_v2 "conn.sqlite") 0,
           Event.call (Call.sqlite3_exec
             "CREATE TABLE IF NOT EXISTS t; DROP TABLE u; -- (\n'a' integer\n);") 0,
           Event.call (Call.sqlite3_prepare_v2
             "INSERT INTO t; DROP TABLE u; -- ( 'a') VALUES (?);" 51) 0]) := by
  decide


/-! ## Positional alignment, the loop of `DoWrite` (C8) -/

theorem mem_AddParams (w : SQLite) (codes : Nat → Int) (val : Value) (pos : Nat)
    (s : List Event) (e : Event) (he : e ∈ s) : e ∈ (AddParams w codes val pos s).2 := by
  rcases AddParams_cases w codes val pos s with ⟨c, _, heq⟩ | ⟨_, _, heq⟩ <;>
    rw [heq] <;> simp [engine, he]

theorem mem_checkError (code : Int) (s : List Event) (e : Event) (he : e ∈ s) :
    e ∈ (checkError code s).2 := by
  unfold checkError
  split_ifs <;> simp [he]

theorem mem_bindParams (w : SQLite) (codes : Nat → Int) :
    ∀ (vals : List Value) (i : Nat) (s : List Event) (e : Event),
    e ∈ s → e ∈ (bindParams w codes vals i s).2 := by
  intro vals
  induction vals with
  | nil =>
    intro i s e he
    exact he
  | cons v vs ih =>
    intro i s e he
    simp only [bindParams]
    have h1 := mem_checkError (AddParams w codes v (i + 1) s).1 _ e
      (mem_AddParams w codes v (i + 1) s e he)
    split_ifs
    · exact h1
    · exact ih (i + 1) _ e h1

theorem mem_DoWrite (w : SQLite) (codes : Nat → Int) (vals : List Value) (e : Event)
    (he : e ∈ (bindParams w codes vals 0 []).2) : e ∈ (DoWrite w codes vals).2 := by
  unfold DoWrite
  simp only []
  split_ifs
  · exact he
  · exact mem_checkError _ _ e (by simp [engine, he])
  · exact mem_checkError _ _ e (by
      simp only [engine, List.mem_append]
      exact Or.inl (mem_checkError _ _ e (by simp [he])))
  · exact mem_checkError _ _ e (by
      simp only [engine, List.mem_append]
      exact Or.inl (mem_checkError _ _ e (by
        simp only [List.mem_append]
        exact Or.inl (mem_checkError _ _ e (by simp [he])))))
  · exact mem_checkError _ _ e (by
      simp only [engine, List.mem_append]
      exact Or.inl (mem_checkError _ _ e (by
        simp only [List.mem_append]
        exact Or.inl (mem_checkError _ _ e (by simp [he])))))

theorem bindParams_append (w : SQLite) (codes : Nat → Int) :
    ∀ (l1 l2 : List Value) (i : Nat) (s : List Event),
    (bindParams w codes l1 i s).1 = true →
    bindParams w codes (l1 ++ l2) i s
      = bindParams w codes l2 (i + l1.length) (bindParams w codes l1 i s).2 := by
  intro l1
  induction l1 with
  | nil =>
    intro l2 i s _
    simp [bindParams]
  | cons v vs ih =>
    intro l2 i s h
    simp only [bindParams, List.cons_append] at h ⊢
    split_ifs at h ⊢ with hb
    have h2 := ih l2 (i + 1) _ h
    rw [show i + 1 + vs.length = i + (v :: vs).length by simp; omega] at h2
    exact h2

theorem GetTableType_subtype (t s1 s2 : TypeTag) : GetTableType t s1 = GetTableType t s2 := by
  cases t <;> rfl

/-- C8, counterexample: when the bind of the first value fails, the second
value of the row is not bound at all; and a present value of a kind outside
the column-type table is not bound either, although the write succeeds. -/
theorem DoWrite_value_not_bound :
    DoWrite sampleWriter (fun k => if k = 0 then 1 else 0)
        [{ type := TypeTag.TYPE_COUNT, val := { uint_val := 7 } },
         { type := TypeTag.TYPE_COUNT, val := { uint_val := 8 } }]
      = (false, [Event.call (Call.sqlite3_bind_int 1 7) 1, Event.Error "SQLite call failed: %s"])
    ∧ DoWrite sampleWriter (fun _ => 0) [{ type := TypeTag.other 0 }]
      = (true, [Event.ErrorTag "unsupported field format %d" (TypeTag.other 0),
          Event.call Call.sqlite3_step 0, Event.call Call.sqlite3_clear_bindings 0,
          Event.call Call.sqlite3_reset 0]) := by
  decide

/-! ## Snapshot reconciliation (C7) -/

theorem wsFind_none_iff (key : Nat) (ws : List (Nat × Entry)) :
    wsFind key ws = none ↔ key ∉ ws.map Prod.fst := by
  induction ws with
  | nil => simp [wsFind]
  | cons p ws ih =>
    obtain ⟨k, e⟩ := p
    by_cases h : k = key
    · simp [wsFind, h]
    · simp only [wsFind, h, if_false, ih, List.map_cons, List.mem_cons]
      constructor
      · intro h1 h2
        rcases h2 with h2 | h2
        · exact h h2.symm
        · exact h1 h2
      · intro h1 h2
        exact h1 (Or.inr h2)

theorem wsReplace_keys (key : Nat) (e : Entry) (ws : List (Nat × Entry)) :
    (wsReplace key e ws).map Prod.fst = ws.map Prod.fst := by
  induction ws with
  | nil => rfl
  | cons p ws ih =>
    obtain ⟨k, e0⟩ := p
    by_cases h : k = key <;> simp [wsReplace, h, ih]

theorem wsFind_replace (key : Nat) (e : Entry) (ws : List (Nat × Entry)) (k : Nat) :
    wsFind k (wsReplace key e ws)
      = if k = key ∧ (wsFind key ws).isSome then some e else wsFind k ws := by
  induction ws with
  | nil => simp [wsReplace, wsFind]
  | cons p ws ih =>
    obtain ⟨k0, e0⟩ := p
    by_cases h : k0 = key
    · subst h
      by_cases hk : k = k0
      · subst hk
        simp [wsReplace, wsFind]
      · have hk2 : ¬ k0 = k := fun h => hk h.symm
        simp [wsReplace, wsFind, hk, hk2]
    · by_cases hk : k0 = k
      · subst hk
        have hk2 : ¬ k0 = key := h
        simp [wsReplace, wsFind, h]
      · simp [wsReplace, wsFind, h, hk, ih]

theorem wsFind_end (ws : List (Nat × Entry)) (hnd : (ws.map Prod.fst).Nodup) (k : Nat) :
    wsFind k ((ws.filter (fun p => p.2.seen)).map (fun p => (p.1, { p.2 with seen := false })))
      = (wsFind k ws).bind (fun e => if e.seen then some { e with seen := false } else none) := by
  induction ws with
  | nil => simp [wsFind]
  | cons p ws ih =>
    obtain ⟨k0, e0⟩ := p
    simp only [List.map_cons, List.nodup_cons] at hnd
    obtain ⟨hnot, hnd⟩ := hnd
    by_cases hk : k0 = k
    · subst hk
      cases hs : e0.seen
      · simp only [List.filter_cons, hs, Bool.false_eq_true, if_false, wsFind, if_true,
          Option.some_bind]
        rw [ih hnd]
        rw [(wsFind_none_iff k0 ws).2 hnot]
        rfl
      · simp [List.filter_cons, hs, wsFind]
    · cases hs : e0.seen
      · simp [List.filter_cons, hs, wsFind, hk, ih hnd]
      · simp [List.filter_cons, hs, wsFind, hk, ih hnd]

theorem end_keys_nodup (ws : List (Nat × Entry)) (hnd : (ws.map Prod.fst).Nodup) :
    (((ws.filter (fun p => p.2.seen)).map
      (fun p => (p.1, ({ p.2 with seen := false } : Entry)))).map Prod.fst).Nodup := by
  rw [List.map_map]
  have h : (Prod.fst ∘ fun (p : Nat × Entry) => (p.1, ({ p.2 with seen := false } : Entry)))
      = Prod.fst := by
    funext p
    rfl
  rw [h]
  exact (List.filter_sublist _).map Prod.fst |>.nodup hnd

theorem lastSent_snoc (H : List Value → Nat) (n key : Nat) (rows : List (List Value))
    (r : List Value) :
    lastSent H n key (rows ++ [r]) = if H (r.take n) = key then some r else lastSent H n key rows := by
  unfold lastSent
  simp [List.find?_cons]
  split_ifs <;> simp_all

theorem runCalls_append (H : List Value → Nat) (st : Stream) (a b : List ReaderCall) :
    runCalls H st (a ++ b) = runCalls H (runCalls H st a) b := by
  induction a generalizing st with
  | nil => rfl
  | cons c a ih =>
    cases c <;> simp [runCalls, ih]

theorem SendEntry_ok (H : List Value → Nat) (n : Nat) (st : Stream) (r : List Value)
    (h : StreamOk H n st) : StreamOk H n (SendEntry H st r) := by
  obtain ⟨hn, hnd, hk⟩ := h
  cases hfind : wsFind (H (r.take n)) st.working_set with
  | none =>
    simp only [SendEntry, hn, hfind]
    refine ⟨rfl, ?_, ?_⟩
    · simp only [List.map_cons, List.nodup_cons]
      exact ⟨(wsFind_none_iff _ _).1 hfind, hnd⟩
    · intro k e hke
      simp only [wsFind] at hke
      split_ifs at hke with h1
      · injection hke with hke
        subst hke
        exact h1
      · exact hk k e hke
  | some e0 =>
    simp only [SendEntry, hn, hfind]
    split_ifs with hsame
    · refine ⟨rfl, by simp only [wsReplace_keys]; exact hnd, ?_⟩
      intro k e hke
      simp only [wsFind_replace, hfind, Option.isSome_some, and_true] at hke
      split_ifs at hke with h1
      · injection hke with hke
        subst hke h1
        exact hk _ e0 hfind
      · exact hk k e hke
    · refine ⟨rfl, by simp only [wsReplace_keys]; exact hnd, ?_⟩
      intro k e hke
      simp only [wsFind_replace, hfind, Option.isSome_some, and_true] at hke
      split_ifs at hke with h1
      · injection hke with hke
        subst hke h1
        rfl
      · exact hk k e hke

theorem SendEntry_cycle (H : List Value → Nat) (n : Nat) (sent : List (List Value))
    (st : Stream) (r : List Value) (h : CycleInv H n sent st) :
    CycleInv H n (sent ++ [r]) (SendEntry H st r) := by
  obtain ⟨hok, hc⟩ := h
  refine ⟨SendEntry_ok H n st r hok, ?_⟩
  obtain ⟨hn, hnd, hk⟩ := hok
  intro k
  rw [lastSent_snoc]
  have hck := hc k
  cases hfind : wsFind (H (r.take n)) st.working_set with
  | none =>
    simp only [SendEntry, hn, hfind]
    by_cases h1 : H (r.take n) = k
    · simp only [h1, if_true]
      refine ⟨{ row := r, seen := true }, ?_, rfl, rfl⟩
      simp [wsFind]
    · simp only [h1, if_false, wsFind]
      exact hck
  | some e0 =>
    simp only [SendEntry, hn, hfind]
    by_cases h1 : H (r.take n) = k
    · have h2 : k = H (r.take n) := h1.symm
      simp only [h1, if_true]
      split_ifs with hsame
      · refine ⟨{ e0 with seen := true }, ?_, rfl, hsame⟩
        rw [← h1]
        simp [wsFind_replace, hfind]
      · refine ⟨{ row := r, seen := true }, ?_, rfl, rfl⟩
        rw [← h1]
        simp [wsFind_replace, hfind]
    · have h2 : ¬ k = H (r.take n) := fun h => h1 h.symm
      simp only [h1, if_false]
      split_ifs with hsame <;>
        simp only [wsFind_replace, h2, false_and, if_false] <;> exact hck

theorem EndCurrentSend_ok (H : List Value → Nat) (n : Nat) (st : Stream)
    (h : StreamOk H n st) :
    StreamOk H n (EndCurrentSend st)
    ∧ ∀ k e, wsFind k (EndCurrentSend st).working_set = some e → e.seen = false := by
  obtain ⟨hn, hnd, hk⟩ := h
  have hfind : ∀ k e, wsFind k (EndCurrentSend st).working_set = some e →
      ∃ e0, wsFind k st.working_set = some e0 ∧ e = { e0 with seen := false } := by
    intro k e hke
    simp only [EndCurrentSend, wsFind_end st.working_set hnd] at hke
    cases h0 : wsFind k st.working_set with
    | none => simp [h0] at hke
    | some e0 =>
      simp only [h0, Option.some_bind] at hke
      split_ifs at hke
      injection hke with hke
      exact ⟨e0, rfl, hke.symm⟩
  refine ⟨⟨hn, end_keys_nodup st.working_set hnd, ?_⟩, ?_⟩
  · intro k e hke
    obtain ⟨e0, h0, rfl⟩ := hfind k e hke
    exact hk k e0 h0
  · intro k e hke
    obtain ⟨e0, _, rfl⟩ := hfind k e hke
    rfl

theorem runCalls_ok (H : List Value → Nat) (n : Nat) (calls : List ReaderCall) :
    ∀ st, StreamOk H n st → StreamOk H n (runCalls H st calls) := by
  induction calls with
  | nil =>
    intro st h
    exact h
  | cons c calls ih =>
    intro st h
    cases c with
    | SendEntry vals => exact ih _ (SendEntry_ok H n st vals h)
    | EndCurrentSend => exact ih _ (EndCurrentSend_ok H n st h).1

theorem sends_cycle (H : List Value → Nat) (n : Nat) (rows : List (List Value)) :
    ∀ (sent : List (List Value)) (st : Stream), CycleInv H n sent st →
    CycleInv H n (sent ++ rows) (runCalls H st (rows.map ReaderCall.SendEntry)) := by
  induction rows with
  | nil =>
    intro sent st h
    simpa [runCalls] using h
  | cons r rows ih =>
    intro sent st h
    have h1 := ih (sent ++ [r]) _ (SendEntry_cycle H n sent st r h)
    simpa [runCalls] using h1

theorem cycle_start (H : List Value → Nat) (n : Nat) (st : Stream) (h : StreamOk H n st)
    (hu : ∀ k e, wsFind k st.working_set = some e → e.seen = false) :
    CycleInv H n [] st := by
  refine ⟨h, ?_⟩
  intro k
  simp only [lastSent, List.reverse_nil, List.find?_nil]
  exact hu k

theorem cycle_end (H : List Value → Nat) (n : Nat) (sent : List (List Value)) (st : Stream)
    (h : CycleInv H n sent st) (k : Nat) :
    (wsFind k (EndCurrentSend st).working_set).map (fun e => (e.row.drop n, e.seen))
      = (lastSent H n k sent).map (fun r => (r.drop n, false)) := by
  obtain ⟨⟨hn, hnd, hk⟩, hc⟩ := h
  have hck := hc k
  simp only [EndCurrentSend, wsFind_end st.working_set hnd]
  cases hl : lastSent H n k sent with
  | none =>
    simp only [hl] at hck
    cases h0 : wsFind k st.working_set with
    | none => simp
    | some e0 => simp [hck e0 h0]
  | some r =>
    simp only [hl] at hck
    obtain ⟨e, h0, hs, hrow⟩ := hck
    simp [h0, hs, hrow]

/-- C7: in indirect mode, right after an `EndCurrentSend` the working set of a
stream holds, under each identity hash, exactly the value suffix of the last
row that was passed to `SendEntry` with that hash since the previous
`EndCurrentSend` (and nothing under a hash that was not sent), with all seen
markers cleared, no hash twice, and every stored row under its own hash;
this holds after any history of calls, and for the first cycle of a stream. -/
theorem working_set_after_cycle (HashLogVals : List Value → Nat) (n : Nat)
    (hist : List ReaderCall) (rows : List (List Value)) (key : Nat) :
    ((wsFind key (runCalls HashLogVals { index_field_count := n }
          (hist ++ [ReaderCall.EndCurrentSend] ++ rows.map ReaderCall.SendEntry
            ++ [ReaderCall.EndCurrentSend])).working_set).map
        (fun e => (e.row.drop n, e.seen))
      = (lastSent HashLogVals n key rows).map (fun r => (r.drop n, false)))
    ∧ ((wsFind key (runCalls HashLogVals { index_field_count := n }
          (rows.map ReaderCall.SendEntry ++ [ReaderCall.EndCurrentSend])).working_set).map
        (fun e => (e.row.drop n, e.seen))
      = (lastSent HashLogVals n key rows).map (fun r => (r.drop n, false)))
    ∧ StreamOk HashLogVals n (runCalls HashLogVals { index_field_count := n }
          (hist ++ [ReaderCall.EndCurrentSend] ++ rows.map ReaderCall.SendEntry
            ++ [ReaderCall.EndCurrentSend])) := by
  have h0 : StreamOk HashLogVals n { index_field_count := n } := by
    refine ⟨rfl, by simp, ?_⟩
    intro k e hke
    simp [wsFind] at hke
  refine ⟨?_, ?_, runCalls_ok HashLogVals n _ _ h0⟩
  · rw [runCalls_append, runCalls_append, runCalls_append]
    have h1 := runCalls_ok HashLogVals n hist _ h0
    obtain ⟨h2, h3⟩ := EndCurrentSend_ok HashLogVals n _ h1
    have h4 := sends_cycle HashLogVals n rows [] _ (cycle_start HashLogVals n _ h2 h3)
    simp only [List.nil_append] at h4
    exact cycle_end HashLogVals n rows _ h4 key
  · rw [runCalls_append]
    have h4 := sends_cycle HashLogVals n rows [] _
      (cycle_start HashLogVals n { index_field_count := n } h0 (by
        intro k e hke
        simp [wsFind] at hke))
    simp only [List.nil_append] at h4
    exact cycle_end HashLogVals n rows _ h4 key


/-! ## Escaping and joining (C5) -/

theorem hexDigit_mem (n : Nat) (h : n < 16) : hexDigit n ∈ escapeAlphabet := by
  interval_cases n <;> decide

theorem hexDigit_inj (a b : Nat) (ha : a < 16) (hb : b < 16) (h : hexDigit a = hexDigit b) :
    a = b := by
  interval_cases a <;> interval_cases b <;> first | rfl | (exact absurd h (by decide))

theorem escapedByte_mem (c ch : Char) (h : ch ∈ escapedByte c) : ch ∈ escapeAlphabet := by
  simp only [escapedByte, List.mem_cons, List.mem_singleton, List.not_mem_nil, or_false] at h
  rcases h with h | h | h | h
  · subst h; decide
  · subst h; decide
  · subst h; exact hexDigit_mem _ (Nat.mod_lt _ (by norm_num))
  · subst h; exact hexDigit_mem _ (Nat.mod_lt _ (by norm_num))

theorem escapedByte_inj (c d : Char) (hc : c.toNat < 256) (hd : d.toNat < 256)
    (h : escapedByte c = escapedByte d) : c = d := by
  simp only [escapedByte, List.cons.injEq, and_true, true_and] at h
  have h1 := hexDigit_inj _ _ (Nat.mod_lt _ (by norm_num)) (Nat.mod_lt _ (by norm_num)) h.1
  have h2 := hexDigit_inj _ _ (Nat.mod_lt _ (by norm_num)) (Nat.mod_lt _ (by norm_num)) h.2
  have h3 : c.toNat = d.toNat := by omega
  rw [← Char.ofNat_toNat c, ← Char.ofNat_toNat d, h3]

theorem escapeText_cons (seqs : List (List Char)) (c : Char) (cs : List Char) :
    escapeText seqs (c :: cs)
      = if c = '\\' ∨ startsEscape seqs (c :: cs) = true then
          escapedByte c ++ escapeText seqs cs
        else c :: escapeText seqs cs := rfl

/-- A text free of escape bytes that starts the escaped text starts the text
itself. -/
theorem prefix_of_prefix_escapeText (seqs : List (List Char)) :
    ∀ (text s : List Char), (∀ ch ∈ s, ch ∉ escapeAlphabet) →
    s <+: escapeText seqs text → s <+: text := by
  intro text
  induction text with
  | nil =>
    intro s _ h
    simpa [escapeText] using h
  | cons c cs ih =>
    intro s hs h
    cases s with
    | nil => exact List.nil_prefix
    | cons a s =>
      rw [escapeText_cons] at h
      split_ifs at h with hc
      · exfalso
        simp only [escapedByte, List.cons_append, List.nil_append] at h
        have ha := (List.cons_prefix_cons.1 h).1
        exact hs a (List.mem_cons_self _ _) (by subst ha; decide)
      · obtain ⟨ha, hrest⟩ := List.cons_prefix_cons.1 h
        have := ih s (fun ch hch => hs ch (List.mem_cons_of_mem _ hch)) hrest
        exact List.cons_prefix_cons.2 ⟨ha, this⟩

/-- No raw occurrence of the separator is left in an escaped text, when the
separator is not empty and holds no escape byte. -/
theorem no_separator_in_escapeText (sep : List Char) (hne : sep ≠ [])
    (hs : ∀ ch ∈ sep, ch ∉ escapeAlphabet) :
    ∀ text : List Char, ¬ sep <:+: escapeText [sep] text := by
  have hsuf : ∀ text t : List Char, t <:+ escapeText [sep] text → ¬ sep <+: t := by
    intro text
    induction text with
    | nil =>
      intro t ht hp
      simp only [escapeText, List.suffix_nil] at ht
      subst ht
      exact hne (List.prefix_nil.1 hp)
    | cons c cs ih =>
      intro t ht hp
      rw [escapeText_cons] at ht
      obtain ⟨a, sep', rfl⟩ := List.exists_cons_of_ne_nil hne
      have ha : a ∉ escapeAlphabet := hs a (List.mem_cons_self _ _)
      split_ifs at ht with hc
      · -- the escaped form of c, then the rest
        have hhead : ∀ (b : Char) (l : List Char), b ∈ escapeAlphabet →
            ¬ (a :: sep') <+: (b :: l) := by
          intro b l hb hpre
          have := (List.cons_prefix_cons.1 hpre).1
          exact ha (this ▸ hb)
        have m1 : '\\' ∈ escapeAlphabet := by decide
        have m2 : 'x' ∈ escapeAlphabet := by decide
        have m3 := hexDigit_mem (c.toNat / 16 % 16) (Nat.mod_lt _ (by norm_num))
        have m4 := hexDigit_mem (c.toNat % 16) (Nat.mod_lt _ (by norm_num))
        simp only [escapedByte, List.cons_append, List.nil_append] at ht
        rcases List.suffix_cons_iff.1 ht with rfl | ht
        · exact hhead _ _ m1 hp
        rcases List.suffix_cons_iff.1 ht with rfl | ht
        · exact hhead _ _ m2 hp
        rcases List.suffix_cons_iff.1 ht with rfl | ht
        · exact hhead _ _ m3 hp
        rcases List.suffix_cons_iff.1 ht with rfl | ht
        · exact hhead _ _ m4 hp
        exact ih t ht hp
      · rcases List.suffix_cons_iff.1 ht with rfl | h2
        · have h3 := prefix_of_prefix_escapeText [a :: sep'] (c :: cs) (a :: sep') hs
            (by rw [escapeText_cons, if_neg hc]; exact hp)
          apply hc
          right
          simp [startsEscape, List.isPrefixOf_iff_prefix.2 h3]
        · exact ih t h2 hp
  intro text hin
  obtain ⟨p, q, hpq⟩ := hin
  exact hsuf text (sep ++ q) ⟨p, by rw [← hpq]; simp⟩ (List.prefix_append _ _)

theorem escaped_is_byte (sep : List Char) (hb : ∀ ch ∈ sep, ch.toNat < 256) (c : Char)
    (cs : List Char) (h : c = '\\' ∨ startsEscape [sep] (c :: cs) = true) : c.toNat < 256 := by
  rcases h with h | h
  · subst h; decide
  · simp only [startsEscape, List.any_cons, List.any_nil, Bool.or_false, Bool.and_eq_true,
      Bool.not_eq_true', List.isPrefixOf_iff_prefix] at h
    obtain ⟨hne, hp⟩ := h
    cases sep with
    | nil => simp at hne
    | cons a sep' =>
      have := (List.cons_prefix_cons.1 hp).1
      exact this ▸ hb a (List.mem_cons_self _ _)

/-- The escaped text determines the text, when the separator is made of
bytes. -/
theorem escapeText_inj (sep : List Char) (hb : ∀ ch ∈ sep, ch.toNat < 256) :
    ∀ t1 t2 : List Char, escapeText [sep] t1 = escapeText [sep] t2 → t1 = t2 := by
  intro t1
  induction t1 with
  | nil =>
    intro t2 h
    cases t2 with
    | nil => rfl
    | cons c2 cs2 =>
      rw [escapeText_cons] at h
      split_ifs at h <;> simp [escapeText, escapedByte] at h
  | cons c1 cs1 ih =>
    intro t2 h
    cases t2 with
    | nil =>
      rw [escapeText_cons] at h
      split_ifs at h <;> simp [escapeText, escapedByte] at h
    | cons c2 cs2 =>
      rw [escapeText_cons, escapeText_cons] at h
      split_ifs at h with h1 h2 h2
      · have hlen : (escapedByte c1).length = (escapedByte c2).length := rfl
        obtain ⟨e1, e2⟩ := List.append_inj h hlen
        have := escapedByte_inj c1 c2 (escaped_is_byte sep hb c1 cs1 h1)
          (escaped_is_byte sep hb c2 cs2 h2) e1
        rw [this, ih cs2 e2]
      · exfalso
        simp only [escapedByte, List.cons_append, List.nil_append, List.cons.injEq] at h
        exact h2 (Or.inl h.1.symm)
      · exfalso
        simp only [escapedByte, List.cons_append, List.nil_append, List.cons.injEq] at h
        exact h1 (Or.inl h.1)
      · simp only [List.cons.injEq] at h
        rw [h.1, ih cs2 h.2]

theorem split_unique (c : Char) :
    ∀ (a b r1 r2 : List Char), c ∉ a → c ∉ b →
    (r1 = [] ∨ ∃ r, r1 = c :: r) → (r2 = [] ∨ ∃ r, r2 = c :: r) →
    a ++ r1 = b ++ r2 → a = b ∧ r1 = r2 := by
  intro a
  induction a with
  | nil =>
    intro b r1 r2 _ hb h1 h2 h
    cases b with
    | nil => exact ⟨rfl, by simpa using h⟩
    | cons y b =>
      exfalso
      simp only [List.nil_append, List.cons_append] at h
      rcases h1 with h1 | ⟨r, h1⟩
      · rw [h1] at h; cases h
      · rw [h1] at h
        injection h with h3 _
        exact hb (h3 ▸ List.mem_cons_self _ _)
  | cons x a ih =>
    intro b r1 r2 ha hb h1 h2 h
    cases b with
    | nil =>
      exfalso
      simp only [List.nil_append, List.cons_append] at h
      rcases h2 with h2 | ⟨r, h2⟩
      · rw [h2] at h; cases h
      · rw [h2] at h
        injection h with h3 _
        exact ha (h3 ▸ List.mem_cons_self _ _)
    | cons y b =>
      simp only [List.cons_append, List.cons.injEq] at h
      obtain ⟨e1, e2⟩ := ih b r1 r2 (fun hm => ha (List.mem_cons_of_mem _ hm))
        (fun hm => hb (List.mem_cons_of_mem _ hm)) h1 h2 h.2
      exact ⟨by rw [h.1, e1], e2⟩

theorem flatMap_sep_shape (c : Char) (l : List (List Char)) :
    l.flatMap (fun t => c :: t) = [] ∨ ∃ r, l.flatMap (fun t => c :: t) = c :: r := by
  cases l with
  | nil => exact Or.inl rfl
  | cons t ts => exact Or.inr ⟨t ++ ts.flatMap (fun t => c :: t), by simp [List.flatMap_cons]⟩

theorem tails_inj (c : Char) :
    ∀ (l1 l2 : List (List Char)), (∀ t ∈ l1, c ∉ t) → (∀ t ∈ l2, c ∉ t) →
    l1.flatMap (fun t => c :: t) = l2.flatMap (fun t => c :: t) → l1 = l2 := by
  intro l1
  induction l1 with
  | nil =>
    intro l2 _ _ h
    cases l2 with
    | nil => rfl
    | cons u us => simp [List.flatMap_cons] at h
  | cons t ts ih =>
    intro l2 h1 h2 h
    cases l2 with
    | nil => simp [List.flatMap_cons] at h
    | cons u us =>
      simp only [List.flatMap_cons, List.cons_append, List.cons.injEq, true_and] at h
      obtain ⟨e1, e2⟩ := split_unique c t u _ _ (h1 t (List.mem_cons_self _ _))
        (h2 u (List.mem_cons_self _ _)) (flatMap_sep_shape c ts) (flatMap_sep_shape c us) h
      rw [e1, ih us (fun x hx => h1 x (List.mem_cons_of_mem _ hx))
        (fun x hx => h2 x (List.mem_cons_of_mem _ hx)) e2]

/-- Joining texts that are free of a one-byte separator loses nothing, for
lists that are not empty. -/
theorem joined_inj (c : Char) (l1 l2 : List (List Char)) (h1 : ∀ t ∈ l1, c ∉ t)
    (h2 : ∀ t ∈ l2, c ∉ t) (n1 : l1 ≠ []) (n2 : l2 ≠ [])
    (h : l1.head n1 ++ l1.tail.flatMap (fun t => c :: t)
        = l2.head n2 ++ l2.tail.flatMap (fun t => c :: t)) : l1 = l2 := by
  cases l1 with
  | nil => exact absurd rfl n1
  | cons t ts =>
    cases l2 with
    | nil => exact absurd rfl n2
    | cons u us =>
      simp only [List.head_cons, List.tail_cons] at h
      obtain ⟨e1, e2⟩ := split_unique c t u _ _ (h1 t (List.mem_cons_self _ _))
        (h2 u (List.mem_cons_self _ _)) (flatMap_sep_shape c ts) (flatMap_sep_shape c us) h
      rw [e1, tails_inj c ts us (fun x hx => h1 x (List.mem_cons_of_mem _ hx))
        (fun x hx => h2 x (List.mem_cons_of_mem _ hx)) e2]

theorem join_data (l : List String) : (String.join l).data = l.flatMap String.data := by
  induction l with
  | nil => rfl
  | cons t ts ih => rw [join_cons_string, String.data_append, ih, List.flatMap_cons]

theorem intercalate_data (sep t : String) (ts : List String) :
    (String.intercalate sep (t :: ts)).data
      = t.data ++ ts.flatMap (fun u => sep.data ++ u.data) := by
  rw [intercalate_cons, String.data_append, join_data, List.flatMap_map]
  simp [String.data_append]

theorem plainSeparator_spec (sep : String) (h : plainSeparator sep = true) :
    sep.data ≠ [] ∧ (∀ ch ∈ sep.data, ch ∉ escapeAlphabet) ∧ (∀ ch ∈ sep.data, ch.toNat < 256) := by
  simp only [plainSeparator, Bool.and_eq_true, Bool.not_eq_true', List.all_eq_true,
    decide_eq_true_eq] at h
  obtain ⟨h1, h2⟩ := h
  refine ⟨?_, ?_, ?_⟩
  · intro h0
    rw [h0] at h1
    simp at h1
  · intro ch hch hmem
    have := (h2 ch hch).2
    simp at this
    exact this hmem
  · intro ch hch
    have := (h2 ch hch).1
    omega

theorem elementText_data (w : SQLite) (v : ElemValue) :
    (elementText w v).data = escapeText [w.set_separator.data] (elementRendering w.io v).data :=
  rfl

theorem elementText_free (w : SQLite) (h : plainSeparator w.set_separator = true)
    (v : ElemValue) : ¬ w.set_separator.data <:+: (elementText w v).data := by
  obtain ⟨h1, h2, _⟩ := plainSeparator_spec _ h
  rw [elementText_data]
  exact no_separator_in_escapeText _ h1 h2 _

theorem elementText_inj (w : SQLite) (h : plainSeparator w.set_separator = true)
    (v1 v2 : ElemValue) (he : elementText w v1 = elementText w v2) :
    elementRendering w.io v1 = elementRendering w.io v2 := by
  obtain ⟨_, _, h3⟩ := plainSeparator_spec _ h
  have hd := congrArg String.data he
  rw [elementText_data, elementText_data] at hd
  exact String.ext (escapeText_inj _ h3 _ _ hd)

theorem joinedText_inj (w : SQLite) (h : plainSeparator w.set_separator = true)
    (hone : w.set_separator.length = 1) (l1 l2 : List ElemValue) (n1 : l1 ≠ []) (n2 : l2 ≠ [])
    (he : joinedText w l1 = joinedText w l2) :
    l1.map (elementRendering w.io) = l2.map (elementRendering w.io) := by
  obtain ⟨c, hc⟩ : ∃ c, w.set_separator.data = [c] := by
    have : w.set_separator.data.length = 1 := hone
    exact List.length_eq_one.1 this
  have hfree : ∀ v, c ∉ (elementText w v).data := by
    intro v hm
    apply elementText_free w h v
    rw [hc]
    obtain ⟨s, t, hst⟩ := List.append_of_mem hm
    exact ⟨s, t, by rw [hst]; simp⟩
  cases l1 with
  | nil => exact absurd rfl n1
  | cons v vs =>
    cases l2 with
    | nil => exact absurd rfl n2
    | cons u us =>
      have hd := congrArg String.data he
      simp only [joinedText, List.map_cons, intercalate_data, hc, List.flatMap_map,
        List.singleton_append] at hd
      have hD := joined_inj c ((v :: vs).map (fun x => (elementText w x).data))
        ((u :: us).map (fun x => (elementText w x).data))
        (by intro t ht; obtain ⟨x, _, rfl⟩ := List.mem_map.1 ht; exact hfree x)
        (by intro t ht; obtain ⟨x, _, rfl⟩ := List.mem_map.1 ht; exact hfree x)
        (by simp) (by simp)
        (by simpa [List.flatMap_map] using hd)
      have hinj : Function.Injective (fun r : String =>
          escapeText [w.set_separator.data] r.data) := by
        intro a b hab
        exact String.ext (escapeText_inj _ (plainSeparator_spec _ h).2.2 _ _ hab)
      have hmap : ((v :: vs).map (elementRendering w.io)).map
            (fun r : String => escapeText [w.set_separator.data] r.data)
          = ((u :: us).map (elementRendering w.io)).map
            (fun r : String => escapeText [w.set_separator.data] r.data) := by
        simpa [List.map_map, Function.comp_def, elementText_data] using hD
      exact (List.map_injective_iff.2 hinj) hmap

/-- C5, counterexample: with the separator `::`, the vector with the elements
`b` and `:c` and the vector with the elements `b:` and `c` are bound as the same
text `b:::c`, although their element sequences differ (no element holds the
separator, so nothing is escaped); with the empty string as empty marker, the
empty set and the set holding one empty string are both bound as the empty
text; and an absent set is not bound as text at all, but as NULL. -/
theorem container_text_collision :
    [stringElem "b", stringElem ":c"] ≠ [stringElem "b:", stringElem "c"]
    ∧ plainSeparator colonWriter.set_separator = true
    ∧ AddParams colonWriter (fun _ => 0)
          { type := TypeTag.TYPE_VECTOR, vector_val := [stringElem "b", stringElem ":c"] } 1 []
      = engine (fun _ => 0) (Call.sqlite3_bind_text 1 "b:::c" 5) []
    ∧ AddParams colonWriter (fun _ => 0)
          { type := TypeTag.TYPE_VECTOR, vector_val := [stringElem "b:", stringElem "c"] } 1 []
      = engine (fun _ => 0) (Call.sqlite3_bind_text 1 "b:::c" 5) []
    ∧ AddParams bareWriter (fun _ => 0) { type := TypeTag.TYPE_TABLE, set_val := [] } 1 []
      = engine (fun _ => 0) (Call.sqlite3_bind_text 1 "" 0) []
    ∧ AddParams bareWriter (fun _ => 0)
          { type := TypeTag.TYPE_TABLE, set_val := [stringElem ""] } 1 []
      = engine (fun _ => 0) (Call.sqlite3_bind_text 1 "" 0) []
    ∧ AddParams sampleWriter (fun _ => 0)
          { type := TypeTag.TYPE_TABLE, present := false, set_val := [stringElem "x"] } 1 []
      = engine (fun _ => 0) (Call.sqlite3_bind_null 1) [] := by
  decide

/-- C5, amended: `AddParams` binds an absent set or vector value as NULL and a
present one as the text, with its number of bytes, formed by rendering each
element, escaping the rendering, and joining the element texts with the raw
separator.  When the separator is not empty and made of ASCII bytes other than
the backslash, `x` and the hexadecimal digits, no element text holds the
separator and the element text determines the rendering; when it is moreover
one byte long, the bound text of a container that is not empty determines the
sequence of the renderings of its elements.  With the comma as separator the
text bound for the elements `x` and `y,z` is `x,y\x2cz`, which differs from the
text `x,y,z` bound for the elements `x`, `y` and `z`. -/
theorem container_bind_text (w : SQLite) (codes : Nat → Int) (val : Value) (pos : Nat)
    (s : List Event) :
    (val.present = false →
        AddParams w codes val pos s = engine codes (Call.sqlite3_bind_null pos) s)
    ∧ (val.present = true → val.type = TypeTag.TYPE_TABLE →
        AddParams w codes val pos s
          = engine codes (Call.sqlite3_bind_text pos (joinedText w val.set_val)
              (joinedText w val.set_val).utf8ByteSize) s)
    ∧ (val.present = true → val.type = TypeTag.TYPE_VECTOR →
        AddParams w codes val pos s
          = engine codes (Call.sqlite3_bind_text pos (joinedText w val.vector_val)
              (joinedText w val.vector_val).utf8ByteSize) s)
    ∧ (plainSeparator w.set_separator = true →
        (∀ v, ¬ w.set_separator.data <:+: (elementText w v).data)
        ∧ (∀ v1 v2, elementText w v1 = elementText w v2 →
            elementRendering w.io v1 = elementRendering w.io v2)
        ∧ (w.set_separator.length = 1 → ∀ l1 l2 : List ElemValue, l1 ≠ [] → l2 ≠ [] →
            joinedText w l1 = joinedText w l2 →
            l1.map (elementRendering w.io) = l2.map (elementRendering w.io)))
    ∧ (w.set_separator = "," →
        joinedText w [stringElem "x", stringElem "y,z"] = "x,y\\x2cz"
        ∧ joinedText w [stringElem "x", stringElem "y", stringElem "z"] = "x,y,z"
        ∧ joinedText w [stringElem "x", stringElem "y,z"]
            ≠ joinedText w [stringElem "x", stringElem "y", stringElem "z"]) := by
  refine ⟨?_, ?_, ?_, ?_, ?_⟩
  · intro hp
    simp [AddParams, hp]
  · intro hp ht
    simp only [AddParams, hp, ht, Bool.not_true, Bool.false_eq_true, if_false, ODesc.Len]
    rw [show (containerDesc w val.set_val).bytes = (containerDesc w val.set_val).Bytes from rfl,
      containerDesc_bytes]
  · intro hp ht
    simp only [AddParams, hp, ht, Bool.not_true, Bool.false_eq_true, if_false, ODesc.Len]
    rw [show (containerDesc w val.vector_val).bytes = (containerDesc w val.vector_val).Bytes
      from rfl, containerDesc_bytes]
  · intro hplain
    exact ⟨elementText_free w hplain, elementText_inj w hplain,
      fun hone l1 l2 n1 n2 he => joinedText_inj w hplain hone l1 l2 n1 n2 he⟩
  · intro hsep
    obtain ⟨sep, io⟩ := w
    simp only at hsep
    subst hsep
    have h1 : joinedText ⟨",", io⟩ [stringElem "x", stringElem "y,z"] = "x,y\\x2cz" := by
      rfl
    have h2 : joinedText ⟨",", io⟩ [stringElem "x", stringElem "y", stringElem "z"] = "x,y,z" := by
      rfl
    refine ⟨h1, h2, ?_⟩
    rw [h1, h2]
    decide

/-- Witness of C5: with the comma as separator, the set with the elements `x`
and `y,z` is bound as `x,y\x2cz`, eight bytes; the text of the element `y,z`
holds no comma; and two different sets with the same bound text, of which one
holds the string `x` and the other the enum `x`, have the same renderings. -/
theorem container_bind_text_witness :
    plainSeparator sampleWriter.set_separator = true
    ∧ sampleWriter.set_separator.length = 1
    ∧ AddParams sampleWriter (fun _ => 0)
        { type := TypeTag.TYPE_TABLE, set_val := [stringElem "x", stringElem "y,z"] } 1 []
      = engine (fun _ => 0) (Call.sqlite3_bind_text 1 "x,y\\x2cz" 8) []
    ∧ ¬ sampleWriter.set_separator.data <:+: (elementText sampleWriter (stringElem "y,z")).data
    ∧ [stringElem "x", stringElem "y,z"]
        ≠ [{ stringElem "x" with type := TypeTag.TYPE_ENUM }, stringElem "y,z"]
    ∧ [stringElem "x", stringElem "y,z"].map (elementRendering sampleWriter.io)
        = [{ stringElem "x" with type := TypeTag.TYPE_ENUM }, stringElem "y,z"].map
            (elementRendering sampleWriter.io) := by
  have h := container_bind_text sampleWriter (fun _ => 0)
    { type := TypeTag.TYPE_TABLE, set_val := [stringElem "x", stringElem "y,z"] } 1 []
  refine ⟨by decide, by decide, ?_, (h.2.2.2.1 (by decide)).1 _, by decide, ?_⟩
  · rw [h.2.1 rfl rfl]
    decide
  · exact (h.2.2.2.1 (by decide)).2.2 (by decide) _ _ (by simp) (by simp) (by decide)


/-! ## Positional alignment, the statements and the row (C8) -/

/-- C8, amended: when the engine is threadsafe, the allocations succeed and the
database could be opened, the create-table statement that `DoInit` executes is
`CREATE TABLE IF NOT EXISTS`, the table name as it is given, and between
parentheses a list of exactly as many column definitions as there are
descriptors, the i-th being the quoted name of the i-th descriptor, a space and
`GetTableType` of its kind; when that statement is accepted, the insert
statement that `DoInit` prepares (with its number of bytes plus one) is
`INSERT INTO`, the table name as it is given, the same quoted names in the
same order, and as many placeholders `?` as there are descriptors.  `DoWrite`
passes the value of index `i` of a row to `AddParams` with the parameter
position `i + 1`, provided that the binds of the values before it did not fail;
when that value is absent or of a kind in the column-type table, the bind at
position `i + 1` is among the calls of the write. -/
theorem statements_aligned (env : Env) (info : WriterInfo) (fields : List Field)
    (w : SQLite) (codes : Nat → Int) (vals : List Value)
    (hts : env.sqlite3_threadsafe ≠ 0)
    (hq : ∀ n, env.sqlite3_mprintf_Q n = some (quoteQ n))
    (hopen : ¬ failing (env.codes 0)) :
    (Event.call (Call.sqlite3_exec
          ("CREATE TABLE IF NOT EXISTS " ++ tableName info ++ " (\n"
            ++ String.intercalate ",\n" (columnDefs fields) ++ "\n);")) (env.codes 1)
        ∈ (DoInit env info fields).2
      ∧ (columnDefs fields).length = fields.length
      ∧ ∀ i f, fields.get? i = some f →
          (columnDefs fields).get? i
            = some (quoteQ f.name ++ " " ++ (GetTableType f.type f.subtype).1))
    ∧ ((env.codes 1 = SQLITE_OK →
        Event.call (Call.sqlite3_prepare_v2 (insertText (tableName info) fields)
            ((insertText (tableName info) fields).utf8ByteSize + 1)) (env.codes 2)
          ∈ (DoInit env info fields).2)
      ∧ insertText (tableName info) fields
          = "INSERT INTO " ++ tableName info ++ " ( "
            ++ String.intercalate ", " (columnNames fields) ++ ") "
            ++ ("VALUES (" ++ String.intercalate ", " (placeholders fields) ++ ");")
      ∧ (columnNames fields).length = fields.length
      ∧ (∀ i f, fields.get? i = some f → (columnNames fields).get? i = some (quoteQ f.name))
      ∧ placeholders fields = List.replicate fields.length "?")
    ∧ (∀ i v sub, vals.get? i = some v →
        (bindParams w codes (vals.take i) 0 []).1 = true →
        (∀ e ∈ (AddParams w codes v (i + 1) (bindParams w codes (vals.take i) 0 []).2).2,
            e ∈ (DoWrite w codes vals).2)
        ∧ ((v.present = false ∨ (GetTableType v.type sub).1 ≠ "") →
            ∃ c, c.bindPos = some (i + 1)
              ∧ AddParams w codes v (i + 1) (bindParams w codes (vals.take i) 0 []).2
                  = engine codes c (bindParams w codes (vals.take i) 0 []).2
              ∧ Event.call c (codes (callsOf (bindParams w codes (vals.take i) 0 []).2).length)
                  ∈ (DoWrite w codes vals).2)) := by
  refine ⟨⟨?_, ?_, ?_⟩, ⟨?_, rfl, ?_, ?_, ?_⟩, ?_⟩
  · rw [DoInit_eq env info fields hts hq hopen]
    by_cases h1 : env.codes 1 = SQLITE_OK <;> by_cases h2 : failing (env.codes 2) <;>
      simp [h1, h2, createText]
  · simp [columnDefs]
  · intro i f hf
    simp only [columnDefs, List.get?_eq_getElem?, List.getElem?_map] at hf ⊢
    rw [hf]
    rfl
  · intro h1
    rw [DoInit_eq env info fields hts hq hopen]
    by_cases h2 : failing (env.codes 2) <;> simp [h1, h2]
  · simp [columnNames]
  · intro i f hf
    simp only [columnNames, List.get?_eq_getElem?, List.getElem?_map] at hf ⊢
    rw [hf]
    rfl
  · simp only [placeholders]
    induction fields with
    | nil => rfl
    | cons f fs ih => simp [List.replicate_succ, ih]
  · intro i v sub hv hok
    have hlt : i < vals.length := (List.get?_eq_some.1 hv).1
    have hsplit : vals = vals.take i ++ v :: vals.drop (i + 1) := by
      have hd : vals.drop i = v :: vals.drop (i + 1) := by
        rw [List.drop_eq_getElem_cons hlt]
        congr 1
        have := (List.get?_eq_some.1 hv).2
        simpa using this
      rw [← hd, List.take_append_drop]
    have hlen : (vals.take i).length = i := by
      simp [List.length_take, Nat.min_eq_left (Nat.le_of_lt hlt)]
    have hrun : bindParams w codes vals 0 []
        = bindParams w codes (v :: vals.drop (i + 1)) i
            (bindParams w codes (vals.take i) 0 []).2 := by
      conv_lhs => rw [hsplit]
      rw [bindParams_append w codes _ _ 0 [] hok, hlen, Nat.zero_add]
    have hmem : ∀ e ∈ (AddParams w codes v (i + 1) (bindParams w codes (vals.take i) 0 []).2).2,
        e ∈ (DoWrite w codes vals).2 := by
      intro e he
      apply mem_DoWrite
      rw [hrun]
      simp only [bindParams]
      have h1 := mem_checkError
        (AddParams w codes v (i + 1) (bindParams w codes (vals.take i) 0 []).2).1 _ e he
      split_ifs
      · exact h1
      · exact mem_bindParams w codes _ _ _ e h1
    refine ⟨hmem, ?_⟩
    intro hsup
    rcases AddParams_cases w codes v (i + 1) (bindParams w codes (vals.take i) 0 []).2 with
      ⟨c, hc, heq⟩ | ⟨hp, hk, _⟩
    · refine ⟨c, hc, heq, ?_⟩
      apply hmem
      rw [heq]
      simp [engine]
    · rcases hsup with h | h
      · rw [hp] at h
        cases h
      · rw [GetTableType_subtype v.type sub v.type] at h
        exact absurd hk h

/-- Witness of C8: two descriptors, the first with a name of two bytes, and a
row of two values; the second value is bound at position 2. -/
theorem statements_aligned_witness :
    Event.call (Call.sqlite3_exec
        "CREATE TABLE IF NOT EXISTS conn (\n'é' integer,\n'b' text\n);") 0
      ∈ (DoInit sampleEnv { path := "conn" }
          [{ name := "é", type := TypeTag.TYPE_INT }, { name := "b", type := TypeTag.TYPE_STRING }]).2
    ∧ Event.call (Call.sqlite3_prepare_v2 "INSERT INTO conn ( 'é', 'b') VALUES (?, ?);" 45) 0
      ∈ (DoInit sampleEnv { path := "conn" }
          [{ name := "é", type := TypeTag.TYPE_INT }, { name := "b", type := TypeTag.TYPE_STRING }]).2
    ∧ (columnDefs
          [{ name := "é", type := TypeTag.TYPE_INT }, { name := "b", type := TypeTag.TYPE_STRING }]).get? 1
        = some "'b' text"
    ∧ ∃ c, c.bindPos = some (1 + 1)
        ∧ Event.call c 0
            ∈ (DoWrite sampleWriter (fun _ => 0)
                [{ type := TypeTag.TYPE_COUNT, val := { uint_val := 7 } },
                 { type := TypeTag.TYPE_STRING, val := { string_val := { data := "x", length := 1 } } }]).2 := by
  have h := statements_aligned sampleEnv { path := "conn" }
    [{ name := "é", type := TypeTag.TYPE_INT }, { name := "b", type := TypeTag.TYPE_STRING }]
    sampleWriter (fun _ => 0)
    [{ type := TypeTag.TYPE_COUNT, val := { uint_val := 7 } },
     { type := TypeTag.TYPE_STRING, val := { string_val := { data := "x", length := 1 } } }]
    (by decide) (fun _ => rfl) (by decide)
  obtain ⟨⟨h1, _, h3⟩, ⟨h4, _⟩, h5⟩ := h
  refine ⟨?_, ?_, ?_, ?_⟩
  · have e : ("CREATE TABLE IF NOT EXISTS " ++ tableName { path := "conn" } ++ " (\n"
          ++ String.intercalate ",\n" (columnDefs
            [{ name := "é", type := TypeTag.TYPE_INT }, { name := "b", type := TypeTag.TYPE_STRING }])
          ++ "\n);")
        = "CREATE TABLE IF NOT EXISTS conn (\n'é' integer,\n'b' text\n);" := by decide
    rw [← e]
    exact h1
  · have e : insertText (tableName { path := "conn" })
          [{ name := "é", type := TypeTag.TYPE_INT }, { name := "b", type := TypeTag.TYPE_STRING }]
        = "INSERT INTO conn ( 'é', 'b') VALUES (?, ?);" := by decide
    have h6 := h4 rfl
    rw [e] at h6
    exact h6
  · exact h3 1 { name := "b", type := TypeTag.TYPE_STRING } rfl
  · obtain ⟨c, hc, _, hmem⟩ := (h5 1
      { type := TypeTag.TYPE_STRING, val := { string_val := { data := "x", length := 1 } } }
      (TypeTag.other 0) rfl (by decide)).2 (Or.inr (by decide))
    exact ⟨c, hc, hmem⟩

end Bro
